import Mathlib

/-!
Verification of the drive-thru queueing simulation (`src/simulation.py`).

The Python program is a SimPy discrete-event simulation: a `Restaurant`
owns three capacity-1 stations (order, pay, pickup); `Customer.start`
drives each customer through balk-check → order → (prep in parallel)
→ pay → pickup, with backpressure checks before releasing the order and
pay stations; `calculateMean*` aggregate per-customer records.

This file embeds the parts of the program the claims are about:

* `Sim.Stats`    — customer records, `Restaurant.__init__` counters and the
                   five `calculateMean*` aggregation functions (source lines
                   28-40, 59-121), with Python division (which raises
                   `ZeroDivisionError` on a zero denominator) embedded as
                   `Except`.
* `Sim.Arrival`  — the first segment of `Customer.start` (lines 170-180 and
                   239-242): the balk check and its effects on the record
                   and counters.
* `Sim.Timeline` — the timing of a single customer's pass through
                   `Customer.start`, with scheduler-induced waits as
                   nonnegative parameters and SimPy's `yield` of a possibly
                   already-fired event embedded as `max`.
* `Sim.Build`    — the construction sequence of the driver (lines 262-270),
                   with the capacity check of the resource constructor
                   modelled from the spec (the SimPy library itself is not
                   part of this repository).
* `Sim.FifoRes`  — a capacity-N FIFO resource, modelled from the spec's
                   §4.2 contract (SimPy's `Resource` is not in this
                   repository's sources).
* `Sim.Sched`    — the event scheduler (earliest time first, ties broken by
                   insertion order), modelled from the spec's §4.1/§5
                   contract, and determinism of complete runs.
* `Sim.Pipe`     — an interleaving small-step semantics of the whole
                   pipeline (arrival generator plus the `Customer.start`
                   state machine over the three capacity-1 stations), used
                   for the backpressure invariant and the terminal-state
                   counter identities.  Admission of a queued customer to a
                   freed station is modelled as a separate scheduler step;
                   this only adds interleavings, so invariants proved over
                   all reachable states cover the SimPy behaviours.
-/

namespace Sim

namespace Stats

/-- A customer's recorded data (`Customer.__init__`, source lines 160-167):
enter/exit times and the four stage durations, all initialised to the
sentinel `-1.0`. -/
structure Customer where
  enterTime : ℚ
  exitTime : ℚ
  orderDuration : ℚ
  prepDuration : ℚ
  payDuration : ℚ
  pickupDuration : ℚ
deriving DecidableEq

/-- `Customer.__init__` sets every tracked field to the sentinel `-1.0`
(source lines 162-167). -/
def Customer.init : Customer :=
  { enterTime := -1, exitTime := -1, orderDuration := -1,
    prepDuration := -1, payDuration := -1, pickupDuration := -1 }

/-- The aggregation-relevant state of a `Restaurant` (source lines 32-35):
the list of all spawned customers and the three counters. -/
structure Restaurant where
  customerList : List Customer
  totalCustomers : ℕ
  numCustomersLeft : ℕ
  numCustomersStayed : ℕ

/-- `Restaurant.__init__` (source lines 32-35): empty customer list, all
counters zero. -/
def Restaurant.init : Restaurant :=
  { customerList := [], totalCustomers := 0,
    numCustomersLeft := 0, numCustomersStayed := 0 }

/-- Python-level errors that the aggregation code can raise. -/
inductive PyError where
  | zeroDivision
deriving DecidableEq

/-- Python's `/` on numbers: raises `ZeroDivisionError` when the
denominator is zero, otherwise returns the quotient. -/
def pydiv (a b : ℚ) : Except PyError ℚ :=
  if b = 0 then .error .zeroDivision else .ok (a / b)

/-- `Restaurant.calculateMeanDriveThruTime` (source lines 59-69): sum
`exitTime - enterTime` over customers whose enter and exit times are both
set (≠ -1.0), then divide by `numCustomersStayed`. -/
def Restaurant.calculateMeanDriveThruTime (r : Restaurant) : Except PyError ℚ :=
  pydiv
    (r.customerList.foldl
      (fun acc person =>
        if person.enterTime ≠ -1 ∧ person.exitTime ≠ -1 then
          acc + (person.exitTime - person.enterTime)
        else acc)
      0)
    r.numCustomersStayed

/-- `Restaurant.calculateMeanOrderTime` (source lines 73-82): sum
`orderDuration` over customers with `orderDuration ≠ -1`, divided by
`numCustomersStayed`. -/
def Restaurant.calculateMeanOrderTime (r : Restaurant) : Except PyError ℚ :=
  pydiv
    (r.customerList.foldl
      (fun acc person =>
        if person.orderDuration ≠ -1 then acc + person.orderDuration else acc)
      0)
    r.numCustomersStayed

/-- `Restaurant.calculateMeanPrepTime` (source lines 86-95). -/
def Restaurant.calculateMeanPrepTime (r : Restaurant) : Except PyError ℚ :=
  pydiv
    (r.customerList.foldl
      (fun acc person =>
        if person.prepDuration ≠ -1 then acc + person.prepDuration else acc)
      0)
    r.numCustomersStayed

/-- `Restaurant.calculateMeanPayTime` (source lines 99-108). -/
def Restaurant.calculateMeanPayTime (r : Restaurant) : Except PyError ℚ :=
  pydiv
    (r.customerList.foldl
      (fun acc person =>
        if person.payDuration ≠ -1 then acc + person.payDuration else acc)
      0)
    r.numCustomersStayed

/-- `Restaurant.calculateMeanPickupTime` (source lines 112-121). -/
def Restaurant.calculateMeanPickupTime (r : Restaurant) : Except PyError ℚ :=
  pydiv
    (r.customerList.foldl
      (fun acc person =>
        if person.pickupDuration ≠ -1 then acc + person.pickupDuration else acc)
      0)
    r.numCustomersStayed

/-- The accumulating loop of each `calculateMean*` equals the sum of the
selected metric over the customers passing the filter. -/
theorem foldl_if_eq_sum (p : Customer → Prop) [DecidablePred p]
    (f : Customer → ℚ) (l : List Customer) (a : ℚ) :
    l.foldl (fun acc person => if p person then acc + f person else acc) a
      = a + ((l.filter (fun person => decide (p person))).map f).sum := by
  induction l generalizing a with
  | nil => simp
  | cons x xs ih =>
    by_cases hx : p x
    · simp [List.foldl_cons, List.filter_cons, hx, ih, add_assoc]
    · simp [List.foldl_cons, List.filter_cons, hx, ih]

end Stats

namespace Arrival

/-- The arrival segment of `Customer.start` (source lines 170-180, 239-242)
acting on the customer record and the two counters.  Inputs: the order
station's wait-line length and capacity at the instant the process starts,
the current clock value, the customer's record, and the stayed/left
counters.  Output: the updated record and counters, and whether the
customer balked (took the `else` branch).  In the stay branch the source
sets `enterTime = env.now` and increments `numCustomersStayed`, then
requests the order station; in the balk branch it only increments
`numCustomersLeft`. -/
def start (queueLen capacity : ℕ) (now : ℚ) (cust : Stats.Customer)
    (stayed left : ℕ) : Stats.Customer × ℕ × ℕ × Bool :=
  if queueLen ≤ 7 + capacity then
    ({ cust with enterTime := now }, stayed + 1, left, false)
  else
    (cust, stayed, left + 1, true)

end Arrival

end Sim

/-- Claim C1: a customer balks if and only if, at the instant its process
starts, the order wait-line length exceeds 7 plus the order station's
capacity; on balking the left counter is incremented and every tracked
field keeps the -1 sentinel; otherwise `enterTime` is set to the current
clock time and the stayed counter is incremented (before the order
request is made). -/
theorem Sim.Arrival.balk_iff_line_full (queueLen capacity : ℕ) (now : ℚ)
    (stayed left : ℕ) :
    ((Sim.Arrival.start queueLen capacity now Sim.Stats.Customer.init stayed left).2.2.2 = true
        ↔ 7 + capacity < queueLen)
      ∧ (7 + capacity < queueLen →
          Sim.Arrival.start queueLen capacity now Sim.Stats.Customer.init stayed left
            = (Sim.Stats.Customer.init, stayed, left + 1, true))
      ∧ (queueLen ≤ 7 + capacity →
          Sim.Arrival.start queueLen capacity now Sim.Stats.Customer.init stayed left
            = ({ Sim.Stats.Customer.init with enterTime := now }, stayed + 1, left, false)) := by
  constructor
  · constructor
    · intro hb
      by_contra hn
      have h : queueLen ≤ 7 + capacity := by omega
      simp [Sim.Arrival.start, h] at hb
    · intro hlt
      have h : ¬ queueLen ≤ 7 + capacity := by omega
      simp [Sim.Arrival.start, h]
  · constructor
    · intro h
      unfold Sim.Arrival.start
      have h' : ¬ queueLen ≤ 7 + capacity := by omega
      simp [h']
    · intro h
      unfold Sim.Arrival.start
      simp [h]

/-- Witness for C1: with capacity 1, a line of length 9 balks (leaving the
record at the sentinels and bumping the left counter), and a line of
length 8 stays. -/
theorem Sim.Arrival.balk_iff_line_full_witness :
    ((Sim.Arrival.start 9 1 3 Sim.Stats.Customer.init 4 2).2.2.2 = true
        ↔ 7 + 1 < 9)
      ∧ Sim.Arrival.start 9 1 3 Sim.Stats.Customer.init 4 2
          = (Sim.Stats.Customer.init, 4, 2 + 1, true)
      ∧ Sim.Arrival.start 8 1 3 Sim.Stats.Customer.init 4 2
          = ({ Sim.Stats.Customer.init with enterTime := 3 }, 4 + 1, 2, false) := by
  refine ⟨(Sim.Arrival.balk_iff_line_full 9 1 3 4 2).1, ?_, ?_⟩
  · exact (Sim.Arrival.balk_iff_line_full 9 1 3 4 2).2.1 (by decide)
  · exact (Sim.Arrival.balk_iff_line_full 8 1 3 4 2).2.2 (by decide)

/-- Claim C5 (evidence): on a freshly-constructed restaurant, where
`numCustomersStayed = 0`, every one of the five average-computing
operations propagates a division-by-zero error instead of returning an
explicit no-data result. -/
theorem Sim.Stats.zero_stayed_raises_div_error :
    Sim.Stats.Restaurant.init.calculateMeanDriveThruTime
        = .error .zeroDivision
      ∧ Sim.Stats.Restaurant.init.calculateMeanOrderTime
        = .error .zeroDivision
      ∧ Sim.Stats.Restaurant.init.calculateMeanPrepTime
        = .error .zeroDivision
      ∧ Sim.Stats.Restaurant.init.calculateMeanPayTime
        = .error .zeroDivision
      ∧ Sim.Stats.Restaurant.init.calculateMeanPickupTime
        = .error .zeroDivision := by
  refine ⟨?_, ?_, ?_, ?_, ?_⟩ <;> rfl

/-- Claim C6: whenever `numCustomersStayed > 0`, each reported average
equals the sum of that metric's recorded values over exactly the customers
whose corresponding field differs from the -1 sentinel (both timestamps
for the total time in system), divided by the stayed counter. -/
theorem Sim.Stats.means_eq_filtered_sum_div_stayed (r : Sim.Stats.Restaurant)
    (hs : r.numCustomersStayed ≠ 0) :
    r.calculateMeanDriveThruTime
        = .ok ((((r.customerList.filter
              (fun person => decide (person.enterTime ≠ -1 ∧ person.exitTime ≠ -1))).map
              (fun person => person.exitTime - person.enterTime)).sum)
            / r.numCustomersStayed)
      ∧ r.calculateMeanOrderTime
        = .ok ((((r.customerList.filter
              (fun person => decide (person.orderDuration ≠ -1))).map
              (fun person => person.orderDuration)).sum)
            / r.numCustomersStayed)
      ∧ r.calculateMeanPrepTime
        = .ok ((((r.customerList.filter
              (fun person => decide (person.prepDuration ≠ -1))).map
              (fun person => person.prepDuration)).sum)
            / r.numCustomersStayed)
      ∧ r.calculateMeanPayTime
        = .ok ((((r.customerList.filter
              (fun person => decide (person.payDuration ≠ -1))).map
              (fun person => person.payDuration)).sum)
            / r.numCustomersStayed)
      ∧ r.calculateMeanPickupTime
        = .ok ((((r.customerList.filter
              (fun person => decide (person.pickupDuration ≠ -1))).map
              (fun person => person.pickupDuration)).sum)
            / r.numCustomersStayed) := by
  have hq : (r.numCustomersStayed : ℚ) ≠ 0 := by
    exact_mod_cast hs
  refine ⟨?_, ?_, ?_, ?_, ?_⟩
  · simp only [Sim.Stats.Restaurant.calculateMeanDriveThruTime,
      Sim.Stats.foldl_if_eq_sum, Sim.Stats.pydiv, if_neg hq, zero_add]
  · simp only [Sim.Stats.Restaurant.calculateMeanOrderTime,
      Sim.Stats.foldl_if_eq_sum, Sim.Stats.pydiv, if_neg hq, zero_add]
  · simp only [Sim.Stats.Restaurant.calculateMeanPrepTime,
      Sim.Stats.foldl_if_eq_sum, Sim.Stats.pydiv, if_neg hq, zero_add]
  · simp only [Sim.Stats.Restaurant.calculateMeanPayTime,
      Sim.Stats.foldl_if_eq_sum, Sim.Stats.pydiv, if_neg hq, zero_add]
  · simp only [Sim.Stats.Restaurant.calculateMeanPickupTime,
      Sim.Stats.foldl_if_eq_sum, Sim.Stats.pydiv, if_neg hq, zero_add]

/-- Witness for C6: a two-customer restaurant (one completed, one balked)
with one stayed customer; the drive-thru average sums only the completed
customer's time and divides by the stayed counter. -/
theorem Sim.Stats.means_eq_filtered_sum_div_stayed_witness :
    ({ customerList :=
          [{ Sim.Stats.Customer.init with enterTime := 1, exitTime := 5 },
            Sim.Stats.Customer.init],
        totalCustomers := 2, numCustomersLeft := 1,
        numCustomersStayed := 1 } : Sim.Stats.Restaurant).calculateMeanDriveThruTime
      = .ok ((((([{ Sim.Stats.Customer.init with enterTime := 1, exitTime := 5 },
            Sim.Stats.Customer.init] :
            List Sim.Stats.Customer).filter
              (fun person => decide (person.enterTime ≠ -1 ∧ person.exitTime ≠ -1))).map
              (fun person => person.exitTime - person.enterTime)).sum) / (1 : ℕ)) :=
  (Sim.Stats.means_eq_filtered_sum_div_stayed
    { customerList :=
        [{ Sim.Stats.Customer.init with enterTime := 1, exitTime := 5 },
          Sim.Stats.Customer.init],
      totalCustomers := 2, numCustomersLeft := 1,
      numCustomersStayed := 1 } (by decide)).1

namespace Sim

namespace Timeline

/-- The timing data of one pass of a customer through `Customer.start`
(source lines 170-238).  The four `Duration` fields are the Weibull
samples drawn by the process (nonnegative, since `weibullvariate` with a
positive scale returns nonnegative values); the `Wait` fields are the
delays the scheduler imposes between a request (or backpressure check) and
the corresponding resumption.  A wait of zero means the event had already
fired or the resource was free. -/
structure CustomerRun where
  enterTime : ℚ
  orderWait : ℚ
  orderDuration : ℚ
  prepDuration : ℚ
  payBpWait : ℚ
  payWait : ℚ
  payDuration : ℚ
  pickupBpWait : ℚ
  pickupWait : ℚ
  pickupDuration : ℚ

/-- SimPy semantics of `yield event` inside a process: the process resumes
at the event's firing time, or immediately (at the current clock value) if
the event has already been processed. -/
def resumeAt (now fires : ℚ) : ℚ := max now fires

/-- Clock value when the order request is granted (after `yield order`,
source lines 179-180). -/
def orderAdmission (r : CustomerRun) : ℚ := r.enterTime + r.orderWait

/-- Clock value when the order timeout fires and the prep timeout is
started (source lines 184-191): the prep delay is scheduled immediately
after ordering completes. -/
def prepStart (r : CustomerRun) : ℚ := orderAdmission r + r.orderDuration

/-- Clock value when the order station is released (source line 200),
after the optional backpressure wait of lines 195-197. -/
def orderRelease (r : CustomerRun) : ℚ := prepStart r + r.payBpWait

/-- Clock value when the pay request is granted (source lines 204-205). -/
def payAdmission (r : CustomerRun) : ℚ := orderRelease r + r.payWait

/-- Clock value when the pickup request is made (source line 224), after
the pay timeout (lines 209-212) and the optional backpressure wait of
lines 215-217. -/
def pickupRequest (r : CustomerRun) : ℚ :=
  payAdmission r + r.payDuration + r.pickupBpWait

/-- Clock value when the pickup request is granted (source lines 224-225);
the pickup timeout is scheduled here (lines 229-230). -/
def pickupAdmission (r : CustomerRun) : ℚ := pickupRequest r + r.pickupWait

/-- Clock value at the end of the pickup stage (source lines 232-238):
`yield prepDelay` (which fired at `prepStart + prepDuration`, or fires
later) followed by `yield pickupDelay` (which fires at
`pickupAdmission + pickupDuration`); the pickup station is released and
`exitTime` is recorded at this instant. -/
def exitTime (r : CustomerRun) : ℚ :=
  resumeAt (resumeAt (pickupAdmission r) (prepStart r + r.prepDuration))
    (pickupAdmission r + r.pickupDuration)

end Timeline

end Sim

/-- Claim C3: the pickup stage (and the release of the pickup resource)
finishes at the later of `prepStart + prepDuration` and
`pickupAdmission + pickupDuration`, the prep delay having been started
just after ordering and run concurrently with payment; in particular the
completion time is at least `prepStart + prepDuration`. -/
theorem Sim.Timeline.pickup_completion_eq_max (r : Sim.Timeline.CustomerRun)
    (hd : 0 ≤ r.pickupDuration) :
    Sim.Timeline.exitTime r
        = max (Sim.Timeline.prepStart r + r.prepDuration)
            (Sim.Timeline.pickupAdmission r + r.pickupDuration)
      ∧ Sim.Timeline.prepStart r + r.prepDuration ≤ Sim.Timeline.exitTime r := by
  have hA : Sim.Timeline.pickupAdmission r
      ≤ Sim.Timeline.pickupAdmission r + r.pickupDuration := by linarith
  constructor
  · unfold Sim.Timeline.exitTime Sim.Timeline.resumeAt
    rw [max_comm (Sim.Timeline.pickupAdmission r)
        (Sim.Timeline.prepStart r + r.prepDuration), max_assoc,
      max_eq_right hA]
  · unfold Sim.Timeline.exitTime Sim.Timeline.resumeAt
    exact le_trans (le_max_right _ _) (le_max_left _ _)

/-- Witness for C3 at a concrete run (prep finishes after pickup would). -/
theorem Sim.Timeline.pickup_completion_eq_max_witness :
    Sim.Timeline.exitTime
        { enterTime := 0, orderWait := 1, orderDuration := 2,
          prepDuration := 10, payBpWait := 0, payWait := 1, payDuration := 1,
          pickupBpWait := 0, pickupWait := 0, pickupDuration := 1 }
      = max (Sim.Timeline.prepStart
            { enterTime := 0, orderWait := 1, orderDuration := 2,
              prepDuration := 10, payBpWait := 0, payWait := 1, payDuration := 1,
              pickupBpWait := 0, pickupWait := 0, pickupDuration := 1 } + 10)
          (Sim.Timeline.pickupAdmission
            { enterTime := 0, orderWait := 1, orderDuration := 2,
              prepDuration := 10, payBpWait := 0, payWait := 1, payDuration := 1,
              pickupBpWait := 0, pickupWait := 0, pickupDuration := 1 } + 1) :=
  (Sim.Timeline.pickup_completion_eq_max
    { enterTime := 0, orderWait := 1, orderDuration := 2,
      prepDuration := 10, payBpWait := 0, payWait := 1, payDuration := 1,
      pickupBpWait := 0, pickupWait := 0, pickupDuration := 1 }
    (by norm_num)).1

/-- Claim C7: for a completed customer, with all scheduler waits and all
sampled durations nonnegative, the recorded and observable event times are
ordered: enter-time ≤ order-admission ≤ pay-admission ≤ pickup-admission
≤ exit-time; in particular `exitTime ≥ enterTime`. -/
theorem Sim.Timeline.completed_times_ordered (r : Sim.Timeline.CustomerRun)
    (h1 : 0 ≤ r.orderWait) (h2 : 0 ≤ r.orderDuration) (h3 : 0 ≤ r.payBpWait)
    (h4 : 0 ≤ r.payWait) (h5 : 0 ≤ r.payDuration) (h6 : 0 ≤ r.pickupBpWait)
    (h7 : 0 ≤ r.pickupWait) :
    r.enterTime ≤ Sim.Timeline.orderAdmission r
      ∧ Sim.Timeline.orderAdmission r ≤ Sim.Timeline.payAdmission r
      ∧ Sim.Timeline.payAdmission r ≤ Sim.Timeline.pickupAdmission r
      ∧ Sim.Timeline.pickupAdmission r ≤ Sim.Timeline.exitTime r
      ∧ r.enterTime ≤ Sim.Timeline.exitTime r := by
  have ha : r.enterTime ≤ Sim.Timeline.orderAdmission r := by
    unfold Sim.Timeline.orderAdmission; linarith
  have hb : Sim.Timeline.orderAdmission r ≤ Sim.Timeline.payAdmission r := by
    unfold Sim.Timeline.payAdmission Sim.Timeline.orderRelease
      Sim.Timeline.prepStart
    linarith
  have hc : Sim.Timeline.payAdmission r ≤ Sim.Timeline.pickupAdmission r := by
    unfold Sim.Timeline.pickupAdmission Sim.Timeline.pickupRequest
    linarith
  have hdl : Sim.Timeline.pickupAdmission r ≤ Sim.Timeline.exitTime r := by
    unfold Sim.Timeline.exitTime Sim.Timeline.resumeAt
    exact le_trans (le_max_left _ _) (le_max_left _ _)
  exact ⟨ha, hb, hc, hdl, le_trans ha (le_trans hb (le_trans hc hdl))⟩

/-- Witness for C7 at a concrete run. -/
theorem Sim.Timeline.completed_times_ordered_witness :
    ({ enterTime := 1, orderWait := 1, orderDuration := 2,
        prepDuration := 3, payBpWait := 0, payWait := 1, payDuration := 1,
        pickupBpWait := 2, pickupWait := 0, pickupDuration := 1 } :
      Sim.Timeline.CustomerRun).enterTime
      ≤ Sim.Timeline.exitTime
        { enterTime := 1, orderWait := 1, orderDuration := 2,
          prepDuration := 3, payBpWait := 0, payWait := 1, payDuration := 1,
          pickupBpWait := 2, pickupWait := 0, pickupDuration := 1 } :=
  (Sim.Timeline.completed_times_ordered
    { enterTime := 1, orderWait := 1, orderDuration := 2,
      prepDuration := 3, payBpWait := 0, payWait := 1, payDuration := 1,
      pickupBpWait := 2, pickupWait := 0, pickupDuration := 1 }
    (by norm_num) (by norm_num) (by norm_num) (by norm_num) (by norm_num)
    (by norm_num) (by norm_num)).2.2.2.2

namespace Sim

namespace Build

/-- The configuration surface of the driver (source lines 13-26): station
counts `NUM_OF_*_STATIONS`, the arrival rate `CUSTOMER_ARRIVAL_RATE`, and
the four mean stage times.  In the source these are class attributes; here
they are gathered into one record so that construction can be examined on
arbitrary values. -/
structure Config where
  numOrderStations : ℤ
  numPayStations : ℤ
  numPickupStations : ℤ
  customerArrivalRate : ℚ
  meanOrderTime : ℚ
  meanFoodPrepTime : ℚ
  meanPayTime : ℚ
  meanPickupTime : ℚ

/-- Errors that can arise while constructing the simulation objects. -/
inductive ConfigError where
  | nonPositiveCapacity
deriving DecidableEq

/-- A constructed station resource (capacity only; the wait line and user
set start empty). -/
structure StationResource where
  capacity : ℤ
deriving DecidableEq

/-- Modelled from the spec: §4.2 "a resource with capacity 0 is invalid
(construction-time error)" — the resource constructor called at source
lines 265-267 validates its capacity and fails on a non-positive value;
the constructor's own code (the SimPy library) is not part of this
repository. -/
def mkResource (capacity : ℤ) : Except ConfigError StationResource :=
  if capacity ≤ 0 then .error .nonPositiveCapacity else .ok ⟨capacity⟩

/-- The objects built by the driver before any event is scheduled. -/
structure BuiltSim where
  orderStation : StationResource
  payStation : StationResource
  pickupStation : StationResource
  restaurant : Stats.Restaurant

/-- The construction sequence of the driver (source lines 262-270): build
the order, pay and pickup resources, then the `Restaurant`.
`Restaurant.__init__` (lines 28-40) performs no validation of any
parameter: the rate and mean-time attributes are stored class-side and
never checked anywhere in the source. -/
def buildSimulation (cfg : Config) : Except ConfigError BuiltSim := do
  let o ← mkResource cfg.numOrderStations
  let p ← mkResource cfg.numPayStations
  let k ← mkResource cfg.numPickupStations
  return { orderStation := o, payStation := p, pickupStation := k,
           restaurant := Stats.Restaurant.init }

/-- A configuration with valid capacities but a negative arrival rate and
a negative mean order time. -/
def negParamConfig : Config :=
  { numOrderStations := 1, numPayStations := 1, numPickupStations := 1,
    customerArrivalRate := -5, meanOrderTime := -3, meanFoodPrepTime := 6,
    meanPayTime := 2, meanPickupTime := 2 }

end Build

end Sim

/-- Counterexample to claim C8: constructing the simulation with a
negative arrival rate and a negative mean stage duration succeeds — no
failure happens at construction time, contradicting the claim that such
configuration errors fail at construction. -/
theorem Sim.Build.negative_params_construct_ok :
    (Sim.Build.buildSimulation Sim.Build.negParamConfig).isOk = true
      ∧ Sim.Build.negParamConfig.customerArrivalRate < 0
      ∧ Sim.Build.negParamConfig.meanOrderTime < 0 := by
  refine ⟨rfl, by norm_num [Sim.Build.negParamConfig], by norm_num [Sim.Build.negParamConfig]⟩

/-- Claim C8 (amended): construction fails if and only if one of the three
station capacities is non-positive (in particular capacity 0 fails);
negative arrival rates or negative mean stage durations are not validated
at construction time. -/
theorem Sim.Build.construction_ok_iff_capacities_positive (cfg : Sim.Build.Config) :
    (Sim.Build.buildSimulation cfg).isOk = true
      ↔ (0 < cfg.numOrderStations ∧ 0 < cfg.numPayStations
          ∧ 0 < cfg.numPickupStations) := by
  by_cases ho : cfg.numOrderStations ≤ 0
  · have heq : Sim.Build.buildSimulation cfg = .error .nonPositiveCapacity := by
      unfold Sim.Build.buildSimulation Sim.Build.mkResource
      simp [ho, Bind.bind, Except.bind]
    rw [heq]
    constructor
    · intro h
      simp [Except.isOk, Except.toBool] at h
    · intro h
      exact absurd h.1 (by omega)
  · by_cases hp : cfg.numPayStations ≤ 0
    · have heq : Sim.Build.buildSimulation cfg = .error .nonPositiveCapacity := by
        unfold Sim.Build.buildSimulation Sim.Build.mkResource
        simp [ho, hp, Bind.bind, Except.bind]
      rw [heq]
      constructor
      · intro h
        simp [Except.isOk, Except.toBool] at h
      · intro h
        exact absurd h.2.1 (by omega)
    · by_cases hk : cfg.numPickupStations ≤ 0
      · have heq : Sim.Build.buildSimulation cfg = .error .nonPositiveCapacity := by
          unfold Sim.Build.buildSimulation Sim.Build.mkResource
          simp [ho, hp, hk, Bind.bind, Except.bind]
        rw [heq]
        constructor
        · intro h
          simp [Except.isOk, Except.toBool] at h
        · intro h
          exact absurd h.2.2 (by omega)
      · have heq : Sim.Build.buildSimulation cfg
            = .ok { orderStation := ⟨cfg.numOrderStations⟩,
                    payStation := ⟨cfg.numPayStations⟩,
                    pickupStation := ⟨cfg.numPickupStations⟩,
                    restaurant := Sim.Stats.Restaurant.init } := by
          unfold Sim.Build.buildSimulation Sim.Build.mkResource
          simp [ho, hp, hk, Bind.bind, Except.bind, Pure.pure, Except.pure]
        rw [heq]
        constructor
        · intro _
          exact ⟨by omega, by omega, by omega⟩
        · intro _
          rfl

namespace Sim

namespace FifoRes

/-- Modelled from the spec: §4.2's `Resource` contract (the implementation
is the SimPy library, not part of this repository).  A capacity-limited
server: `users` are the requests currently admitted, `queue` is the FIFO
wait line, and `reqTrace`/`admTrace` record the order in which requests
were made and admitted (for stating FIFO fairness). -/
structure RState where
  capacity : ℕ
  users : List ℕ
  queue : List ℕ
  reqTrace : List ℕ
  admTrace : List ℕ

/-- A freshly constructed resource: no users, empty wait line. -/
def initR (capacity : ℕ) : RState :=
  { capacity := capacity, users := [], queue := [], reqTrace := [], admTrace := [] }

/-- Modelled from the spec: §4.2 `request()` — "if `in_use < capacity`,
admission succeeds immediately; otherwise the requester is appended to the
wait line". -/
def request (s : RState) (id : ℕ) : RState :=
  if s.users.length < s.capacity then
    { s with users := s.users ++ [id], reqTrace := s.reqTrace ++ [id],
             admTrace := s.admTrace ++ [id] }
  else
    { s with queue := s.queue ++ [id], reqTrace := s.reqTrace ++ [id] }

/-- Modelled from the spec: §4.2 `release(ticket)` — "removes the holder
from in-use and, if the wait line is non-empty, admits the head of the
line".  Releasing an id that is not in use is a no-op. -/
def release (s : RState) (id : ℕ) : RState :=
  if id ∈ s.users then
    match s.queue with
    | [] => { s with users := s.users.erase id }
    | h :: t =>
        { s with users := s.users.erase id ++ [h], queue := t,
                 admTrace := s.admTrace ++ [h] }
  else s

/-- One operation against the resource. -/
inductive ROp where
  | request (id : ℕ)
  | release (id : ℕ)

/-- Apply one operation. -/
def applyOp (s : RState) : ROp → RState
  | .request id => request s id
  | .release id => release s id

/-- Run a sequence of operations from a fresh resource of the given
capacity. -/
def runOps (capacity : ℕ) (ops : List ROp) : RState :=
  ops.foldl applyOp (initR capacity)

/-- The inductive invariant of the resource: the in-use count is bounded
by the capacity, a non-empty wait line means the resource is full, and the
admissions so far followed by the current wait line are exactly the
requests so far, in order. -/
def ResInv (s : RState) : Prop :=
  s.users.length ≤ s.capacity
    ∧ (s.queue ≠ [] → s.users.length = s.capacity)
    ∧ s.admTrace ++ s.queue = s.reqTrace

theorem resInv_init (capacity : ℕ) : ResInv (initR capacity) := by
  refine ⟨by simp [initR], by simp [initR], by simp [initR]⟩

theorem resInv_applyOp (s : RState) (op : ROp) (h : ResInv s) :
    ResInv (applyOp s op) := by
  obtain ⟨hlen, hfull, htr⟩ := h
  cases op with
  | request id =>
    show ResInv (request s id)
    unfold request
    by_cases hfree : s.users.length < s.capacity
    · have hq : s.queue = [] := by
        by_contra hne
        exact absurd (hfull hne) (by omega)
      refine ⟨?_, ?_, ?_⟩
      · simp [hfree]
        omega
      · simp [hfree, hq]
      · simp only [if_pos hfree]
        rw [hq] at htr
        simp at htr
        simp [hq, htr]
    · refine ⟨?_, ?_, ?_⟩
      · simp [hfree, hlen]
      · simp [hfree]
        omega
      · simp only [if_neg hfree]
        simp [← htr]
  | release id =>
    show ResInv (release s id)
    unfold release
    by_cases hid : id ∈ s.users
    · have herase : (s.users.erase id).length + 1 = s.users.length :=
        List.length_erase_add_one hid
      cases hq : s.queue with
      | nil =>
        refine ⟨?_, ?_, ?_⟩
        · simp [hid, hq]
          omega
        · simp [hid, hq]
        · simp [hid, hq]
          rw [hq] at htr
          simpa using htr
      | cons hd tl =>
        have hcap : s.users.length = s.capacity := hfull (by simp [hq])
        refine ⟨?_, ?_, ?_⟩
        · simp [hid, hq]
          omega
        · simp [hid, hq]
          intro _
          omega
        · simp only [hid, if_pos hid, hq]
          rw [hq] at htr
          simpa [List.append_assoc] using htr
    · simpa [hid] using ⟨hlen, hfull, htr⟩

theorem applyOp_capacity (s : RState) (op : ROp) :
    (applyOp s op).capacity = s.capacity := by
  cases op with
  | request id =>
    show (request s id).capacity = s.capacity
    unfold request
    by_cases hfree : s.users.length < s.capacity <;> simp [hfree]
  | release id =>
    show (release s id).capacity = s.capacity
    unfold release
    by_cases hid : id ∈ s.users
    · cases hq : s.queue <;> simp [hid, hq]
    · simp [hid]

theorem runOps_capacity (capacity : ℕ) (ops : List ROp) :
    (runOps capacity ops).capacity = capacity := by
  suffices hgen : ∀ s, (ops.foldl applyOp s).capacity = s.capacity from
    hgen (initR capacity)
  induction ops with
  | nil => intro s; rfl
  | cons op rest ih =>
    intro s
    rw [List.foldl_cons, ih, applyOp_capacity]

theorem resInv_runOps (capacity : ℕ) (ops : List ROp) :
    ResInv (runOps capacity ops) := by
  suffices hgen : ∀ s, ResInv s → ResInv (ops.foldl applyOp s) from
    hgen (initR capacity) (resInv_init capacity)
  induction ops with
  | nil => intro s hs; simpa using hs
  | cons op rest ih =>
    intro s hs
    exact ih (applyOp s op) (resInv_applyOp s op hs)

end FifoRes

end Sim

/-- Claim C4: for a station resource of capacity C ≥ 1, after any sequence
of request/release operations the number of simultaneously admitted
customers never exceeds C, and the admissions happened exactly in request
order: the admission trace followed by the still-waiting line reconstructs
the request trace (so admission order is a prefix of request order, FIFO
for every interleaving of operations). -/
theorem Sim.FifoRes.capacity_and_fifo (capacity : ℕ) (hc : 1 ≤ capacity)
    (ops : List Sim.FifoRes.ROp) :
    (Sim.FifoRes.runOps capacity ops).users.length ≤ capacity
      ∧ (Sim.FifoRes.runOps capacity ops).admTrace
          ++ (Sim.FifoRes.runOps capacity ops).queue
        = (Sim.FifoRes.runOps capacity ops).reqTrace := by
  have h := Sim.FifoRes.resInv_runOps capacity ops
  have hcap := Sim.FifoRes.runOps_capacity capacity ops
  exact ⟨le_trans h.1 (le_of_eq hcap), h.2.2⟩

/-- Witness for C4: a capacity-1 resource, two requests and one release:
the bound and the trace identity hold on the resulting state. -/
theorem Sim.FifoRes.capacity_and_fifo_witness :
    (Sim.FifoRes.runOps 1 [.request 0, .request 1, .release 0]).users.length ≤ 1
      ∧ (Sim.FifoRes.runOps 1 [.request 0, .request 1, .release 0]).admTrace
          ++ (Sim.FifoRes.runOps 1 [.request 0, .request 1, .release 0]).queue
        = (Sim.FifoRes.runOps 1 [.request 0, .request 1, .release 0]).reqTrace :=
  Sim.FifoRes.capacity_and_fifo 1 (by decide) [.request 0, .request 1, .release 0]

namespace Sim

namespace Sched

/-- Modelled from the spec: §4.1/§5 — the engine's event abstraction.  A
scheduled event has a firing time and an insertion sequence number; the
sequence number is the tie-break key ("events scheduled for the same
simulated time execute in FIFO order of scheduling").  `data` identifies
the continuation to resume. -/
structure Ev (α : Type) where
  time : ℚ
  seq : ℕ
  data : α
deriving DecidableEq

/-- A scheduler configuration: the pending-event set, the system state the
continuations act on, and the next free sequence number. -/
structure SchedState (σ α : Type) where
  queue : List (Ev α)
  state : σ
  nextSeq : ℕ

/-- The scheduler's ordering on events: earlier time first, ties broken by
lower sequence number (insertion order). -/
def lexLe {α : Type} (e₁ e₂ : Ev α) : Prop :=
  e₁.time < e₂.time ∨ (e₁.time = e₂.time ∧ e₁.seq ≤ e₂.seq)

/-- `NextEv q e`: `e` is an earliest pending event of `q` — the event the
scheduler pops next ("repeatedly pops the earliest pending event"). -/
def NextEv {α : Type} (q : List (Ev α)) (e : Ev α) : Prop :=
  e ∈ q ∧ ∀ e', e' ∈ q → lexLe e e'

/-- Stamp newly scheduled continuations with consecutive fresh sequence
numbers, preserving the order in which the running continuation scheduled
them. -/
def stamp {α : Type} (n : ℕ) : List (ℚ × α) → List (Ev α)
  | [] => []
  | (t, a) :: rest => ⟨t, n, a⟩ :: stamp (n + 1) rest

/-- One scheduler step under a handler `h` (the semantics of resuming one
continuation: it updates the system state and schedules further events):
pop an earliest event `e`, run the continuation, append the newly
scheduled events with fresh sequence numbers. -/
def SimStep {σ α : Type} [DecidableEq α] (h : σ → Ev α → σ × List (ℚ × α))
    (c c' : SchedState σ α) (e : Ev α) : Prop :=
  NextEv c.queue e
    ∧ c' = { queue := c.queue.erase e ++ stamp c.nextSeq (h c.state e).2,
             state := (h c.state e).1,
             nextSeq := c.nextSeq + (h c.state e).2.length }

/-- A run of the scheduler recording the sequence of processed events. -/
inductive Runs {σ α : Type} [DecidableEq α] (h : σ → Ev α → σ × List (ℚ × α)) :
    SchedState σ α → List (Ev α) → SchedState σ α → Prop where
  | halt (c : SchedState σ α) : Runs h c [] c
  | step {c c' c'' : SchedState σ α} {e : Ev α} {tr : List (Ev α)} :
      SimStep h c c' e → Runs h c' tr c'' → Runs h c (e :: tr) c''

/-- Well-formedness of a scheduler configuration: every pending event's
sequence number is below the next free one, and sequence numbers are
pairwise distinct. -/
def SeqInv {σ α : Type} (c : SchedState σ α) : Prop :=
  (∀ e, e ∈ c.queue → e.seq < c.nextSeq) ∧ (c.queue.map Ev.seq).Nodup

theorem lexLe_antisymm_parts {α : Type} {e₁ e₂ : Ev α}
    (h₁ : lexLe e₁ e₂) (h₂ : lexLe e₂ e₁) :
    e₁.time = e₂.time ∧ e₁.seq = e₂.seq := by
  rcases h₁ with h₁ | ⟨ht₁, hs₁⟩
  · rcases h₂ with h₂ | ⟨ht₂, hs₂⟩
    · exact absurd h₂ (lt_asymm h₁)
    · exact absurd h₁ (by rw [ht₂]; exact lt_irrefl _)
  · rcases h₂ with h₂ | ⟨ht₂, hs₂⟩
    · exact absurd h₂ (by rw [ht₁]; exact lt_irrefl _)
    · exact ⟨ht₁, le_antisymm hs₁ hs₂⟩

/-- With pairwise-distinct sequence numbers the earliest pending event is
unique: the fixed tie-break rule leaves the scheduler no choice. -/
theorem nextEv_unique {α : Type} {q : List (Ev α)} {e₁ e₂ : Ev α}
    (hnd : (q.map Ev.seq).Nodup) (h₁ : NextEv q e₁) (h₂ : NextEv q e₂) :
    e₁ = e₂ := by
  have hle₁ : lexLe e₁ e₂ := h₁.2 e₂ h₂.1
  have hle₂ : lexLe e₂ e₁ := h₂.2 e₁ h₁.1
  have hseq : e₁.seq = e₂.seq := (lexLe_antisymm_parts hle₁ hle₂).2
  exact List.inj_on_of_nodup_map hnd h₁.1 h₂.1 hseq

theorem stamp_seq_bounds {α : Type} (l : List (ℚ × α)) (n : ℕ) (e : Ev α)
    (he : e ∈ stamp n l) : n ≤ e.seq ∧ e.seq < n + l.length := by
  induction l generalizing n with
  | nil => simp [stamp] at he
  | cons x rest ih =>
    rcases x with ⟨t, a⟩
    simp only [stamp, List.mem_cons] at he
    rcases he with he | he
    · subst he
      simp
    · have := ih (n + 1) he
      constructor
      · omega
      · simp only [List.length_cons]
        omega

theorem stamp_seq_nodup {α : Type} (l : List (ℚ × α)) (n : ℕ) :
    ((stamp n l).map Ev.seq).Nodup := by
  induction l generalizing n with
  | nil => simp [stamp]
  | cons x rest ih =>
    rcases x with ⟨t, a⟩
    simp only [stamp, List.map_cons, List.nodup_cons]
    refine ⟨?_, ih (n + 1)⟩
    intro hmem
    rcases List.mem_map.mp hmem with ⟨e, he, hseq⟩
    have := stamp_seq_bounds rest (n + 1) e he
    omega

theorem seqInv_step {σ α : Type} [DecidableEq α]
    {h : σ → Ev α → σ × List (ℚ × α)} {c c' : SchedState σ α} {e : Ev α}
    (hs : SimStep h c c' e) (hinv : SeqInv c) : SeqInv c' := by
  obtain ⟨hbound, hnd⟩ := hinv
  obtain ⟨_, hc'⟩ := hs
  subst hc'
  constructor
  · intro e' he'
    simp only [List.mem_append] at he'
    rcases he' with he' | he'
    · have := hbound e' (List.mem_of_mem_erase he')
      simp only []
      omega
    · have := stamp_seq_bounds _ _ _ he'
      simp only []
      omega
  · simp only [List.map_append]
    apply List.Nodup.append
    · exact List.Nodup.sublist (List.Sublist.map Ev.seq (List.erase_sublist e c.queue)) hnd
    · exact stamp_seq_nodup _ _
    · intro x hx hx'
      rcases List.mem_map.mp hx with ⟨e₁, he₁, hs₁⟩
      rcases List.mem_map.mp hx' with ⟨e₂, he₂, hs₂⟩
      have hb₁ := hbound e₁ (List.mem_of_mem_erase he₁)
      have hb₂ := stamp_seq_bounds _ _ _ he₂
      omega

/-- One scheduler step is deterministic on well-formed configurations. -/
theorem simStep_det {σ α : Type} [DecidableEq α]
    {h : σ → Ev α → σ × List (ℚ × α)} {c c₁ c₂ : SchedState σ α}
    {e₁ e₂ : Ev α} (hinv : SeqInv c)
    (h₁ : SimStep h c c₁ e₁) (h₂ : SimStep h c c₂ e₂) :
    e₁ = e₂ ∧ c₁ = c₂ := by
  have he : e₁ = e₂ := nextEv_unique hinv.2 h₁.1 h₂.1
  subst he
  exact ⟨rfl, h₁.2.trans h₂.2.symm⟩

end Sched

end Sim

/-- Claim C9: the engine is deterministic — from one well-formed initial
configuration (one seed fixes the initial state, the random stream and the
initially scheduled arrival process), any two complete runs of the
scheduler (runs ending with an empty pending-event set, as `env.run()`
does) process the same events in the same order and end in the same final
state, so every aggregate statistic read from the final state coincides. -/
theorem Sim.Sched.runs_unique {σ α : Type} [DecidableEq α]
    {h : σ → Sim.Sched.Ev α → σ × List (ℚ × α)}
    {c c₁ c₂ : Sim.Sched.SchedState σ α}
    {tr₁ tr₂ : List (Sim.Sched.Ev α)}
    (hinv : Sim.Sched.SeqInv c)
    (r₁ : Sim.Sched.Runs h c tr₁ c₁) (r₂ : Sim.Sched.Runs h c tr₂ c₂)
    (hc₁ : c₁.queue = []) (hc₂ : c₂.queue = []) :
    tr₁ = tr₂ ∧ c₁ = c₂ := by
  induction r₁ generalizing tr₂ c₂ with
  | halt c0 =>
    cases r₂ with
    | halt => exact ⟨rfl, rfl⟩
    | step hs _ =>
      have hmem := hs.1.1
      rw [hc₁] at hmem
      cases hmem
  | step hs₁ rest₁ ih =>
    cases r₂ with
    | halt =>
      have hmem := hs₁.1.1
      rw [hc₂] at hmem
      cases hmem
    | step hs₂ rest₂ =>
      obtain ⟨he, hcmid⟩ := Sim.Sched.simStep_det hinv hs₁ hs₂
      subst he
      rw [← hcmid] at rest₂
      have hinv' := Sim.Sched.seqInv_step hs₁ hinv
      obtain ⟨htr, hcend⟩ := ih hinv' rest₂ hc₁ hc₂
      exact ⟨by rw [htr], hcend⟩

namespace Sim

namespace Sched

/-- A one-event configuration used to witness `runs_unique`. -/
def wConfig : SchedState ℕ Unit :=
  { queue := [⟨0, 0, ()⟩], state := 0, nextSeq := 1 }

/-- A handler that counts processed events and schedules nothing. -/
def wHandler : ℕ → Ev Unit → ℕ × List (ℚ × Unit) := fun s _ => (s + 1, [])

/-- The complete run of the witness configuration. -/
theorem wRuns : Runs wHandler wConfig [⟨0, 0, ()⟩]
    { queue := [], state := 1, nextSeq := 1 } := by
  refine Runs.step ⟨⟨?_, ?_⟩, ?_⟩ (Runs.halt _)
  · simp [wConfig]
  · intro e' he'
    simp [wConfig] at he'
    subst he'
    exact Or.inr ⟨rfl, le_refl 0⟩
  · rfl

end Sched

end Sim

/-- Witness for C9: on a concrete one-event configuration, two complete
runs coincide. -/
theorem Sim.Sched.runs_unique_witness :
    ([⟨0, 0, ()⟩] : List (Sim.Sched.Ev Unit)) = [⟨0, 0, ()⟩]
      ∧ ({ queue := [], state := 1, nextSeq := 1 } : Sim.Sched.SchedState ℕ Unit)
        = { queue := [], state := 1, nextSeq := 1 } :=
  Sim.Sched.runs_unique
    (by constructor
        · intro e he
          simp [Sim.Sched.wConfig] at he
          subst he
          decide
        · simp [Sim.Sched.wConfig])
    Sim.Sched.wRuns Sim.Sched.wRuns rfl rfl

namespace Sim

namespace Pipe

/-- `NUM_OF_ORDER_STATIONS` (source line 13). -/
def NUM_OF_ORDER_STATIONS : ℕ := 1

/-- `NUM_OF_PAY_STATIONS` (source line 14). -/
def NUM_OF_PAY_STATIONS : ℕ := 1

/-- `NUM_OF_PICKUP_STATIONS` (source line 15). -/
def NUM_OF_PICKUP_STATIONS : ℕ := 1

/-- The pay-line backpressure limit of source line 195: the order-station
holder suspends while `len(payStation.queue) >= 5`. -/
def PAY_LINE_LIMIT : ℕ := 5

/-- The pickup-line backpressure limit of source line 215. -/
def PICKUP_LINE_LIMIT : ℕ := 2

/-- The control position of one customer process inside `Customer.start`
(source lines 170-242), plus `unspawned` for ids the arrival generator has
not produced yet.  `payBpWait h` / `pickupBpWait h` record the id `h` of
the downstream wait-line head whose request event the process is yielding
on (lines 197 and 217). -/
inductive Phase where
  | unspawned
  | pending
  | inOrderQueue
  | ordering
  | payBpWait (headId : ℕ)
  | inPayQueue
  | paying
  | pickupBpWait (headId : ℕ)
  | inPickupQueue
  | pickingUp
  | done
  | balked
deriving DecidableEq

/-- The interleaving state of the whole simulation: the arrival generator's
progress (`spawned`, mirrored by `totalCustomers` and the customer-list
length, source lines 48-50), each customer's control position, the three
capacity-1 stations (the holder of the single slot and the FIFO wait
line), and the stay/leave counters.  Customers are identified by their
spawn index. -/
structure Sys where
  spawned : ℕ
  totalCustomers : ℕ
  listLen : ℕ
  pc : ℕ → Phase
  orderHolder : Option ℕ
  payHolder : Option ℕ
  pickupHolder : Option ℕ
  orderQueue : List ℕ
  payQueue : List ℕ
  pickupQueue : List ℕ
  numCustomersStayed : ℕ
  numCustomersLeft : ℕ

/-- Pointwise update of the control-position map. -/
def setPc (pc : ℕ → Phase) (c : ℕ) (ph : Phase) : ℕ → Phase :=
  fun d => if d = c then ph else pc d

/-- The initial state: nothing spawned, all stations free and empty
(source lines 262-270). -/
def init : Sys :=
  { spawned := 0, totalCustomers := 0, listLen := 0,
    pc := fun _ => Phase.unspawned,
    orderHolder := none, payHolder := none, pickupHolder := none,
    orderQueue := [], payQueue := [], pickupQueue := [],
    numCustomersStayed := 0, numCustomersLeft := 0 }

/-- One scheduler step of the simulation with an arrival budget of `n`
customers (`generate_customers(n)`, source lines 43-55).  Each constructor
is one atomic segment of Python code between two suspension points; the
admission of a wait-line head into a freed station is modelled as its own
step, which only adds interleavings relative to SimPy's synchronous
triggering inside `release`.

* `spawn` — the generator's loop body (lines 46-51): create a customer,
  append it to `customerList`, increment `totalCustomers`, start its
  process.
* `startStay`/`startBalk` — the first segment of `Customer.start` (lines
  172-180 and 239-241): balk check against the order wait line, then
  either enter (increment `numCustomersStayed`, request the order station)
  or leave (increment `numCustomersLeft`).
* `admitOrder`/`admitPay`/`admitPickup` — the station grants its free slot
  to the head of its wait line (FIFO admission of the resource contract).
* `orderToPay` — lines 184-205 when the backpressure check of line 195
  fails: finish ordering, start prep, release the order station and
  request the pay station in one segment.
* `orderBpEnter` — lines 195-197 when `len(payStation.queue) >= 5`: record
  the current head of the pay line and suspend on its request event.
* `orderBpResume` — resumption of line 197: the observed head has left the
  pay wait line; release the order station and request the pay station
  (lines 200-205).
* `payToPickup`/`payBpEnter`/`payBpResume` — the symmetric segment at the
  pay station (lines 209-225, limit 2, line 215).
* `finishPickup` — lines 228-238: the pickup timeout and the prep timeout
  have elapsed; release the pickup station, record the exit time, end. -/
inductive Step (n : ℕ) : Sys → Sys → Prop where
  | spawn (s : Sys) (hlt : s.spawned < n) :
      Step n s { s with spawned := s.spawned + 1,
                        totalCustomers := s.totalCustomers + 1,
                        listLen := s.listLen + 1,
                        pc := setPc s.pc s.spawned Phase.pending }
  | startStay (s : Sys) (c : ℕ) (hpc : s.pc c = Phase.pending)
      (hlen : s.orderQueue.length ≤ 7 + NUM_OF_ORDER_STATIONS) :
      Step n s { s with pc := setPc s.pc c Phase.inOrderQueue,
                        orderQueue := s.orderQueue ++ [c],
                        numCustomersStayed := s.numCustomersStayed + 1 }
  | startBalk (s : Sys) (c : ℕ) (hpc : s.pc c = Phase.pending)
      (hlen : 7 + NUM_OF_ORDER_STATIONS < s.orderQueue.length) :
      Step n s { s with pc := setPc s.pc c Phase.balked,
                        numCustomersLeft := s.numCustomersLeft + 1 }
  | admitOrder (s : Sys) (c : ℕ) (rest : List ℕ) (hfree : s.orderHolder = none)
      (hq : s.orderQueue = c :: rest) :
      Step n s { s with orderHolder := some c, orderQueue := rest,
                        pc := setPc s.pc c Phase.ordering }
  | orderToPay (s : Sys) (c : ℕ) (hh : s.orderHolder = some c)
      (hpc : s.pc c = Phase.ordering) (hlen : s.payQueue.length < PAY_LINE_LIMIT) :
      Step n s { s with orderHolder := none,
                        payQueue := s.payQueue ++ [c],
                        pc := setPc s.pc c Phase.inPayQueue }
  | orderBpEnter (s : Sys) (c hd : ℕ) (hh : s.orderHolder = some c)
      (hpc : s.pc c = Phase.ordering) (hlen : PAY_LINE_LIMIT ≤ s.payQueue.length)
      (hhead : s.payQueue.head? = some hd) :
      Step n s { s with pc := setPc s.pc c (Phase.payBpWait hd) }
  | orderBpResume (s : Sys) (c hd : ℕ) (hh : s.orderHolder = some c)
      (hpc : s.pc c = Phase.payBpWait hd) (hout : hd ∉ s.payQueue) :
      Step n s { s with orderHolder := none,
                        payQueue := s.payQueue ++ [c],
                        pc := setPc s.pc c Phase.inPayQueue }
  | admitPay (s : Sys) (c : ℕ) (rest : List ℕ) (hfree : s.payHolder = none)
      (hq : s.payQueue = c :: rest) :
      Step n s { s with payHolder := some c, payQueue := rest,
                        pc := setPc s.pc c Phase.paying }
  | payToPickup (s : Sys) (c : ℕ) (hh : s.payHolder = some c)
      (hpc : s.pc c = Phase.paying) (hlen : s.pickupQueue.length < PICKUP_LINE_LIMIT) :
      Step n s { s with payHolder := none,
                        pickupQueue := s.pickupQueue ++ [c],
                        pc := setPc s.pc c Phase.inPickupQueue }
  | payBpEnter (s : Sys) (c hd : ℕ) (hh : s.payHolder = some c)
      (hpc : s.pc c = Phase.paying) (hlen : PICKUP_LINE_LIMIT ≤ s.pickupQueue.length)
      (hhead : s.pickupQueue.head? = some hd) :
      Step n s { s with pc := setPc s.pc c (Phase.pickupBpWait hd) }
  | payBpResume (s : Sys) (c hd : ℕ) (hh : s.payHolder = some c)
      (hpc : s.pc c = Phase.pickupBpWait hd) (hout : hd ∉ s.pickupQueue) :
      Step n s { s with payHolder := none,
                        pickupQueue := s.pickupQueue ++ [c],
                        pc := setPc s.pc c Phase.inPickupQueue }
  | admitPickup (s : Sys) (c : ℕ) (rest : List ℕ) (hfree : s.pickupHolder = none)
      (hq : s.pickupQueue = c :: rest) :
      Step n s { s with pickupHolder := some c, pickupQueue := rest,
                        pc := setPc s.pc c Phase.pickingUp }
  | finishPickup (s : Sys) (c : ℕ) (hh : s.pickupHolder = some c)
      (hpc : s.pc c = Phase.pickingUp) :
      Step n s { s with pickupHolder := none, pc := setPc s.pc c Phase.done }

/-- States reachable from the initial state with arrival budget `n`. -/
inductive Reachable (n : ℕ) : Sys → Prop where
  | refl : Reachable n init
  | tail {s s' : Sys} : Reachable n s → Step n s s' → Reachable n s'

/-- Number of spawned customers whose process has not run its first
segment yet. -/
def pendingCount (s : Sys) : ℕ :=
  ((Finset.range s.spawned).filter (fun c => s.pc c = Phase.pending)).card

theorem setPc_same (pc : ℕ → Phase) (c : ℕ) (ph : Phase) :
    setPc pc c ph c = ph := by
  simp [setPc]

theorem setPc_ne (pc : ℕ → Phase) (c : ℕ) (ph : Phase) {d : ℕ} (hd : d ≠ c) :
    setPc pc c ph d = pc d := by
  simp [setPc, hd]

end Pipe

end Sim

namespace Sim

namespace Pipe

/-- Phases in which a customer occupies the order station's single slot
(capacity `NUM_OF_ORDER_STATIONS = 1`): ordering, or suspended on the
pay-line backpressure check while still holding the slot. -/
def IsOrderPhase : Phase → Prop
  | Phase.ordering => True
  | Phase.payBpWait _ => True
  | _ => False

/-- Phases in which a customer occupies the pay station's single slot. -/
def IsPayPhase : Phase → Prop
  | Phase.paying => True
  | Phase.pickupBpWait _ => True
  | _ => False

/-- Phases in which a customer occupies the pickup station's single slot. -/
def IsPickupPhase : Phase → Prop
  | Phase.pickingUp => True
  | _ => False

/-- The inductive invariant of the pipeline: counter mirroring, coherence
of control positions with station slots and wait lines, wait lines without
duplicates, the two backpressure bounds, and the head-tracking property of
a suspended backpressure wait. -/
structure Inv (s : Sys) : Prop where
  total_eq : s.totalCustomers = s.spawned
  list_eq : s.listLen = s.spawned
  pc_unspawned : ∀ c, s.spawned ≤ c → s.pc c = Phase.unspawned
  pc_spawned : ∀ c, c < s.spawned → s.pc c ≠ Phase.unspawned
  orderQ_mem : ∀ c, c ∈ s.orderQueue ↔ s.pc c = Phase.inOrderQueue
  payQ_mem : ∀ c, c ∈ s.payQueue ↔ s.pc c = Phase.inPayQueue
  pickupQ_mem : ∀ c, c ∈ s.pickupQueue ↔ s.pc c = Phase.inPickupQueue
  orderH_iff : ∀ c, s.orderHolder = some c ↔ IsOrderPhase (s.pc c)
  payH_iff : ∀ c, s.payHolder = some c ↔ IsPayPhase (s.pc c)
  pickupH_iff : ∀ c, s.pickupHolder = some c ↔ IsPickupPhase (s.pc c)
  orderQ_nodup : s.orderQueue.Nodup
  payQ_nodup : s.payQueue.Nodup
  pickupQ_nodup : s.pickupQueue.Nodup
  payQ_len : s.payQueue.length ≤ PAY_LINE_LIMIT
  pickupQ_len : s.pickupQueue.length ≤ PICKUP_LINE_LIMIT
  payBp_inv : ∀ c hd, s.pc c = Phase.payBpWait hd →
      ((hd ∈ s.payQueue ∧ s.payQueue.length = PAY_LINE_LIMIT
          ∧ s.payQueue.head? = some hd)
        ∨ s.payQueue.length < PAY_LINE_LIMIT)
  pickupBp_inv : ∀ c hd, s.pc c = Phase.pickupBpWait hd →
      ((hd ∈ s.pickupQueue ∧ s.pickupQueue.length = PICKUP_LINE_LIMIT
          ∧ s.pickupQueue.head? = some hd)
        ∨ s.pickupQueue.length < PICKUP_LINE_LIMIT)
  count_eq : s.numCustomersStayed + s.numCustomersLeft + pendingCount s = s.spawned

theorem nodup_concat {q : List ℕ} {c : ℕ} (hc : c ∉ q) (hq : q.Nodup) :
    (q ++ [c]).Nodup := by
  rw [List.nodup_append]
  refine ⟨hq, List.nodup_singleton c, ?_⟩
  intro a ha hb
  rw [List.mem_singleton] at hb
  subst hb
  exact hc ha

theorem mem_of_head?_eq {l : List ℕ} {a : ℕ} (h : l.head? = some a) : a ∈ l := by
  cases l with
  | nil => simp at h
  | cons x xs =>
    simp at h
    subst h
    exact List.mem_cons_self x xs

/-- Appending a customer to a wait line while moving its control position
to the matching in-line phase preserves the membership characterisation. -/
theorem memIff_push {q : List ℕ} {pc : ℕ → Phase} {c : ℕ} {target : Phase}
    (hmem : ∀ d, d ∈ q ↔ pc d = target) :
    ∀ d, d ∈ q ++ [c] ↔ setPc pc c target d = target := by
  intro d
  by_cases hd : d = c
  · subst hd
    simp [setPc_same]
  · rw [setPc_ne _ _ _ hd]
    simp only [List.mem_append, List.mem_singleton]
    constructor
    · rintro (h | h)
      · exact (hmem d).1 h
      · exact absurd h hd
    · intro h
      exact Or.inl ((hmem d).2 h)

/-- A control-position change not involving the in-line phase of a wait
line preserves the line's membership characterisation. -/
theorem memIff_keep {q : List ℕ} {pc : ℕ → Phase} {c : ℕ} {ph target : Phase}
    (hmem : ∀ d, d ∈ q ↔ pc d = target)
    (hpre : pc c ≠ target) (hpost : ph ≠ target) :
    ∀ d, d ∈ q ↔ setPc pc c ph d = target := by
  intro d
  by_cases hd : d = c
  · subst hd
    rw [setPc_same]
    constructor
    · intro h
      exact absurd ((hmem d).1 h) hpre
    · intro h
      exact absurd h hpost
  · rw [setPc_ne _ _ _ hd]
    exact hmem d

/-- Popping the head of a wait line while moving it to a non-in-line phase
preserves the membership characterisation. -/
theorem memIff_pop {q rest : List ℕ} {pc : ℕ → Phase} {c : ℕ} {ph target : Phase}
    (hq : q = c :: rest) (hmem : ∀ d, d ∈ q ↔ pc d = target)
    (hnd : q.Nodup) (hpost : ph ≠ target) :
    ∀ d, d ∈ rest ↔ setPc pc c ph d = target := by
  subst hq
  intro d
  by_cases hd : d = c
  · subst hd
    rw [setPc_same]
    constructor
    · intro h
      exact absurd h (List.nodup_cons.mp hnd).1
    · intro h
      exact absurd h hpost
  · rw [setPc_ne _ _ _ hd]
    simpa [List.mem_cons, hd] using hmem d

/-- A station-holder characterisation survives a control-position change
that touches neither a holding phase before nor after. -/
theorem holderIff_keep {P : Phase → Prop} {hold : Option ℕ} {pc : ℕ → Phase}
    {c₀ : ℕ} {ph : Phase}
    (hiff : ∀ c, hold = some c ↔ P (pc c)) (hpre : ¬ P (pc c₀)) (hpost : ¬ P ph) :
    ∀ c, hold = some c ↔ P (setPc pc c₀ ph c) := by
  intro c
  by_cases hc : c = c₀
  · subst hc
    rw [setPc_same]
    constructor
    · intro hsome
      exact absurd ((hiff _).1 hsome) hpre
    · intro hP
      exact absurd hP hpost
  · rw [setPc_ne _ _ _ hc]
    exact hiff c

/-- From a free station slot: no customer is in a holding phase. -/
theorem holder_none_not {P : Phase → Prop} {hold : Option ℕ} {pc : ℕ → Phase}
    (hiff : ∀ c, hold = some c ↔ P (pc c)) (hnone : hold = none) :
    ∀ c, ¬ P (pc c) := by
  intro c hP
  have := (hiff c).2 hP
  rw [hnone] at this
  cases this

/-- Granting a free slot to customer `c₀` (moved into a holding phase)
re-establishes the holder characterisation. -/
theorem holderIff_acquire {P : Phase → Prop} {pc : ℕ → Phase} {c₀ : ℕ} {ph : Phase}
    (hnone : ∀ c, ¬ P (pc c)) (hpost : P ph) :
    ∀ c, (some c₀ : Option ℕ) = some c ↔ P (setPc pc c₀ ph c) := by
  intro c
  by_cases hc : c = c₀
  · subst hc
    rw [setPc_same]
    simp [hpost]
  · rw [setPc_ne _ _ _ hc]
    constructor
    · intro hsome
      exact absurd (Option.some.inj hsome).symm hc
    · intro hP
      exact absurd hP (hnone c)

/-- Releasing the slot held by `c₀` (moved into a non-holding phase)
re-establishes the holder characterisation with a free slot. -/
theorem holderIff_release {P : Phase → Prop} {hold : Option ℕ} {pc : ℕ → Phase}
    {c₀ : ℕ} {ph : Phase}
    (hiff : ∀ c, hold = some c ↔ P (pc c)) (hsome : hold = some c₀)
    (hpost : ¬ P ph) :
    ∀ c, (none : Option ℕ) = some c ↔ P (setPc pc c₀ ph c) := by
  intro c
  constructor
  · intro h
    cases h
  · intro hP
    by_cases hc : c = c₀
    · subst hc
      rw [setPc_same] at hP
      exact absurd hP hpost
    · rw [setPc_ne _ _ _ hc] at hP
      have hc' := (hiff c).2 hP
      rw [hsome] at hc'
      exact absurd (Option.some.inj hc').symm hc

/-- The holder moves between two holding phases (e.g. from `ordering` into
the backpressure wait) without giving up the slot. -/
theorem holderIff_rephase {P : Phase → Prop} {hold : Option ℕ} {pc : ℕ → Phase}
    {c₀ : ℕ} {ph : Phase}
    (hiff : ∀ c, hold = some c ↔ P (pc c)) (hsome : hold = some c₀)
    (hpost : P ph) :
    ∀ c, hold = some c ↔ P (setPc pc c₀ ph c) := by
  intro c
  by_cases hc : c = c₀
  · subst hc
    rw [setPc_same, hsome]
    simp [hpost]
  · rw [setPc_ne _ _ _ hc]
    exact hiff c

theorem filter_card_setPc_untouched (pc : ℕ → Phase) (c : ℕ) (ph : Phase) (m : ℕ)
    (hpre : pc c ≠ Phase.pending) (hpost : ph ≠ Phase.pending) :
    ((Finset.range m).filter (fun d => setPc pc c ph d = Phase.pending)).card
      = ((Finset.range m).filter (fun d => pc d = Phase.pending)).card := by
  congr 1
  apply Finset.filter_congr
  intro d _
  by_cases hd : d = c
  · subst hd
    simp [setPc_same, hpre, hpost]
  · simp [setPc_ne _ _ _ hd]

theorem filter_card_setPc_out (pc : ℕ → Phase) (c : ℕ) (ph : Phase) (m : ℕ)
    (hc : c < m) (hpre : pc c = Phase.pending) (hpost : ph ≠ Phase.pending) :
    ((Finset.range m).filter (fun d => pc d = Phase.pending)).card
      = ((Finset.range m).filter (fun d => setPc pc c ph d = Phase.pending)).card + 1 := by
  have hset : (Finset.range m).filter (fun d => pc d = Phase.pending)
      = insert c ((Finset.range m).filter (fun d => setPc pc c ph d = Phase.pending)) := by
    ext d
    simp only [Finset.mem_filter, Finset.mem_range, Finset.mem_insert]
    constructor
    · rintro ⟨hdm, hdp⟩
      by_cases hd : d = c
      · exact Or.inl hd
      · exact Or.inr ⟨hdm, by rw [setPc_ne _ _ _ hd]; exact hdp⟩
    · rintro (hd | ⟨hdm, hdp⟩)
      · subst hd
        exact ⟨hc, hpre⟩
      · by_cases hd : d = c
        · subst hd
          exact ⟨hdm, hpre⟩
        · rw [setPc_ne _ _ _ hd] at hdp
          exact ⟨hdm, hdp⟩
  have hnotmem : c ∉ (Finset.range m).filter
      (fun d => setPc pc c ph d = Phase.pending) := by
    simp only [Finset.mem_filter, Finset.mem_range, setPc_same]
    intro hcontra
    exact hpost hcontra.2
  rw [hset, Finset.card_insert_of_not_mem hnotmem]

theorem filter_card_spawn (pc : ℕ → Phase) (m : ℕ) :
    ((Finset.range (m + 1)).filter
        (fun d => setPc pc m Phase.pending d = Phase.pending)).card
      = ((Finset.range m).filter (fun d => pc d = Phase.pending)).card + 1 := by
  have h1 : (Finset.range (m + 1)).filter
        (fun d => setPc pc m Phase.pending d = Phase.pending)
      = insert m ((Finset.range m).filter (fun d => pc d = Phase.pending)) := by
    ext d
    simp only [Finset.mem_filter, Finset.mem_range, Finset.mem_insert]
    constructor
    · rintro ⟨hdm, hdp⟩
      by_cases hd : d = m
      · exact Or.inl hd
      · rw [setPc_ne _ _ _ hd] at hdp
        exact Or.inr ⟨by omega, hdp⟩
    · rintro (hd | ⟨hdm, hdp⟩)
      · subst hd
        exact ⟨by omega, by rw [setPc_same]⟩
      · refine ⟨by omega, ?_⟩
        rw [setPc_ne _ _ _ (by omega)]
        exact hdp
  have hnotmem : m ∉ (Finset.range m).filter (fun d => pc d = Phase.pending) := by
    simp
  rw [h1, Finset.card_insert_of_not_mem hnotmem]

theorem inv_init : Inv init := by
  refine { total_eq := rfl, list_eq := rfl,
           pc_unspawned := ?_, pc_spawned := ?_,
           orderQ_mem := ?_, payQ_mem := ?_, pickupQ_mem := ?_,
           orderH_iff := ?_, payH_iff := ?_, pickupH_iff := ?_,
           orderQ_nodup := List.nodup_nil, payQ_nodup := List.nodup_nil,
           pickupQ_nodup := List.nodup_nil,
           payQ_len := ?_, pickupQ_len := ?_,
           payBp_inv := ?_, pickupBp_inv := ?_, count_eq := ?_ }
  · intro c _
    rfl
  · intro c hc
    simp [init] at hc
  · intro c
    simp [init]
  · intro c
    simp [init]
  · intro c
    simp [init]
  · intro c
    simp [init, IsOrderPhase]
  · intro c
    simp [init, IsPayPhase]
  · intro c
    simp [init, IsPickupPhase]
  · simp [init, PAY_LINE_LIMIT]
  · simp [init, PICKUP_LINE_LIMIT]
  · intro c hd hpc
    simp [init] at hpc
  · intro c hd hpc
    simp [init] at hpc
  · simp [init, pendingCount]

end Pipe

end Sim

namespace Sim

namespace Pipe

/-- A control-position change whose new phase is not a backpressure-wait
phase of the given shape preserves a backpressure-wait property over an
unchanged wait line. -/
theorem waitInv_keep {W : ℕ → Phase} {G : ℕ → Prop} {pc : ℕ → Phase}
    {c₀ : ℕ} {ph : Phase}
    (hbp : ∀ c hd, pc c = W hd → G hd) (hpost : ∀ hd, ph ≠ W hd) :
    ∀ c hd, setPc pc c₀ ph c = W hd → G hd := by
  intro c hd hpc
  by_cases hc : c = c₀
  · subst hc
    rw [setPc_same] at hpc
    exact absurd hpc (hpost hd)
  · rw [setPc_ne _ _ _ hc] at hpc
    exact hbp c hd hpc

/-- Any customer in a holding phase of a station is the station's holder:
holding phases are mutually exclusive across customers. -/
theorem holder_unique_wait {P : Phase → Prop} {hold : Option ℕ} {pc : ℕ → Phase}
    {c c'' : ℕ} (hiff : ∀ d, hold = some d ↔ P (pc d)) (hh : hold = some c)
    (hP : P (pc c'')) : c'' = c := by
  have h2 := (hiff c'').2 hP
  rw [hh] at h2
  exact (Option.some.inj h2).symm

/-- A control-position change at a customer that is not `unspawned`
preserves the unspawned characterisation. -/
theorem pcUnspawned_keep {pc : ℕ → Phase} {m c₀ : ℕ} {ph : Phase}
    (hun : ∀ c, m ≤ c → pc c = Phase.unspawned)
    (hpre : pc c₀ ≠ Phase.unspawned) :
    ∀ c, m ≤ c → setPc pc c₀ ph c = Phase.unspawned := by
  intro c hc
  have hcc : c ≠ c₀ := by
    intro he
    subst he
    exact hpre (hun c hc)
  rw [setPc_ne _ _ _ hcc]
  exact hun c hc

/-- A control-position change to a non-`unspawned` phase preserves the
spawned characterisation. -/
theorem pcSpawned_keep {pc : ℕ → Phase} {m c₀ : ℕ} {ph : Phase}
    (hsp : ∀ c, c < m → pc c ≠ Phase.unspawned)
    (hpost : ph ≠ Phase.unspawned) :
    ∀ c, c < m → setPc pc c₀ ph c ≠ Phase.unspawned := by
  intro c hc
  by_cases hcc : c = c₀
  · subst hcc
    rw [setPc_same]
    exact hpost
  · rw [setPc_ne _ _ _ hcc]
    exact hsp c hc

/-- A customer whose control position is not `unspawned` has been
spawned. -/
theorem lt_spawned_of_phase {s : Sys} (hinv : Inv s) {c : ℕ} {ph : Phase}
    (hpc : s.pc c = ph) (hne : ph ≠ Phase.unspawned) : c < s.spawned := by
  by_contra hge
  rw [hinv.pc_unspawned c (by omega)] at hpc
  exact hne hpc.symm

theorem inv_spawn {s : Sys} (hinv : Inv s) :
    Inv { s with spawned := s.spawned + 1,
                 totalCustomers := s.totalCustomers + 1,
                 listLen := s.listLen + 1,
                 pc := setPc s.pc s.spawned Phase.pending } := by
  have hpre : s.pc s.spawned = Phase.unspawned :=
    hinv.pc_unspawned s.spawned (le_refl _)
  refine
    { total_eq := by show s.totalCustomers + 1 = s.spawned + 1; rw [hinv.total_eq],
      list_eq := by show s.listLen + 1 = s.spawned + 1; rw [hinv.list_eq],
      pc_unspawned := ?_, pc_spawned := ?_,
      orderQ_mem := memIff_keep hinv.orderQ_mem (by rw [hpre]; simp) (by simp),
      payQ_mem := memIff_keep hinv.payQ_mem (by rw [hpre]; simp) (by simp),
      pickupQ_mem := memIff_keep hinv.pickupQ_mem (by rw [hpre]; simp) (by simp),
      orderH_iff := holderIff_keep hinv.orderH_iff
        (by rw [hpre]; simp [IsOrderPhase]) (by simp [IsOrderPhase]),
      payH_iff := holderIff_keep hinv.payH_iff
        (by rw [hpre]; simp [IsPayPhase]) (by simp [IsPayPhase]),
      pickupH_iff := holderIff_keep hinv.pickupH_iff
        (by rw [hpre]; simp [IsPickupPhase]) (by simp [IsPickupPhase]),
      orderQ_nodup := hinv.orderQ_nodup, payQ_nodup := hinv.payQ_nodup,
      pickupQ_nodup := hinv.pickupQ_nodup,
      payQ_len := hinv.payQ_len, pickupQ_len := hinv.pickupQ_len,
      payBp_inv := waitInv_keep hinv.payBp_inv (by intro hd; simp),
      pickupBp_inv := waitInv_keep hinv.pickupBp_inv (by intro hd; simp),
      count_eq := ?_ }
  · intro c hc
    have hc' : s.spawned + 1 ≤ c := hc
    show setPc s.pc s.spawned Phase.pending c = Phase.unspawned
    have hcc : c ≠ s.spawned := by omega
    rw [setPc_ne _ _ _ hcc]
    exact hinv.pc_unspawned c (by omega)
  · intro c hc
    have hc' : c < s.spawned + 1 := hc
    show setPc s.pc s.spawned Phase.pending c ≠ Phase.unspawned
    by_cases hcc : c = s.spawned
    · subst hcc
      rw [setPc_same]
      simp
    · rw [setPc_ne _ _ _ hcc]
      exact hinv.pc_spawned c (by omega)
  · show s.numCustomersStayed + s.numCustomersLeft
        + ((Finset.range (s.spawned + 1)).filter
            (fun d => setPc s.pc s.spawned Phase.pending d = Phase.pending)).card
      = s.spawned + 1
    have hcard := filter_card_spawn s.pc s.spawned
    have hold := hinv.count_eq
    unfold pendingCount at hold
    omega

theorem inv_startStay {s : Sys} {c : ℕ} (hinv : Inv s)
    (hpc : s.pc c = Phase.pending) :
    Inv { s with pc := setPc s.pc c Phase.inOrderQueue,
                 orderQueue := s.orderQueue ++ [c],
                 numCustomersStayed := s.numCustomersStayed + 1 } := by
  have hnotin : c ∉ s.orderQueue := by
    intro hmem
    have h2 := (hinv.orderQ_mem c).1 hmem
    rw [hpc] at h2
    simp at h2
  refine
    { total_eq := hinv.total_eq, list_eq := hinv.list_eq,
      pc_unspawned := pcUnspawned_keep hinv.pc_unspawned (by rw [hpc]; simp),
      pc_spawned := pcSpawned_keep hinv.pc_spawned (by simp),
      orderQ_mem := memIff_push hinv.orderQ_mem,
      payQ_mem := memIff_keep hinv.payQ_mem (by rw [hpc]; simp) (by simp),
      pickupQ_mem := memIff_keep hinv.pickupQ_mem (by rw [hpc]; simp) (by simp),
      orderH_iff := holderIff_keep hinv.orderH_iff
        (by rw [hpc]; simp [IsOrderPhase]) (by simp [IsOrderPhase]),
      payH_iff := holderIff_keep hinv.payH_iff
        (by rw [hpc]; simp [IsPayPhase]) (by simp [IsPayPhase]),
      pickupH_iff := holderIff_keep hinv.pickupH_iff
        (by rw [hpc]; simp [IsPickupPhase]) (by simp [IsPickupPhase]),
      orderQ_nodup := nodup_concat hnotin hinv.orderQ_nodup,
      payQ_nodup := hinv.payQ_nodup, pickupQ_nodup := hinv.pickupQ_nodup,
      payQ_len := hinv.payQ_len, pickupQ_len := hinv.pickupQ_len,
      payBp_inv := waitInv_keep hinv.payBp_inv (by intro hd; simp),
      pickupBp_inv := waitInv_keep hinv.pickupBp_inv (by intro hd; simp),
      count_eq := ?_ }
  · show s.numCustomersStayed + 1 + s.numCustomersLeft
        + ((Finset.range s.spawned).filter
            (fun d => setPc s.pc c Phase.inOrderQueue d = Phase.pending)).card
      = s.spawned
    have hcm : c < s.spawned := lt_spawned_of_phase hinv hpc (by simp)
    have hcard := filter_card_setPc_out s.pc c Phase.inOrderQueue s.spawned hcm hpc
      (by simp)
    have hold := hinv.count_eq
    unfold pendingCount at hold
    omega

theorem inv_startBalk {s : Sys} {c : ℕ} (hinv : Inv s)
    (hpc : s.pc c = Phase.pending) :
    Inv { s with pc := setPc s.pc c Phase.balked,
                 numCustomersLeft := s.numCustomersLeft + 1 } := by
  refine
    { total_eq := hinv.total_eq, list_eq := hinv.list_eq,
      pc_unspawned := pcUnspawned_keep hinv.pc_unspawned (by rw [hpc]; simp),
      pc_spawned := pcSpawned_keep hinv.pc_spawned (by simp),
      orderQ_mem := memIff_keep hinv.orderQ_mem (by rw [hpc]; simp) (by simp),
      payQ_mem := memIff_keep hinv.payQ_mem (by rw [hpc]; simp) (by simp),
      pickupQ_mem := memIff_keep hinv.pickupQ_mem (by rw [hpc]; simp) (by simp),
      orderH_iff := holderIff_keep hinv.orderH_iff
        (by rw [hpc]; simp [IsOrderPhase]) (by simp [IsOrderPhase]),
      payH_iff := holderIff_keep hinv.payH_iff
        (by rw [hpc]; simp [IsPayPhase]) (by simp [IsPayPhase]),
      pickupH_iff := holderIff_keep hinv.pickupH_iff
        (by rw [hpc]; simp [IsPickupPhase]) (by simp [IsPickupPhase]),
      orderQ_nodup := hinv.orderQ_nodup, payQ_nodup := hinv.payQ_nodup,
      pickupQ_nodup := hinv.pickupQ_nodup,
      payQ_len := hinv.payQ_len, pickupQ_len := hinv.pickupQ_len,
      payBp_inv := waitInv_keep hinv.payBp_inv (by intro hd; simp),
      pickupBp_inv := waitInv_keep hinv.pickupBp_inv (by intro hd; simp),
      count_eq := ?_ }
  · show s.numCustomersStayed + (s.numCustomersLeft + 1)
        + ((Finset.range s.spawned).filter
            (fun d => setPc s.pc c Phase.balked d = Phase.pending)).card
      = s.spawned
    have hcm : c < s.spawned := lt_spawned_of_phase hinv hpc (by simp)
    have hcard := filter_card_setPc_out s.pc c Phase.balked s.spawned hcm hpc
      (by simp)
    have hold := hinv.count_eq
    unfold pendingCount at hold
    omega

theorem inv_admitOrder {s : Sys} {c : ℕ} {rest : List ℕ} (hinv : Inv s)
    (hfree : s.orderHolder = none) (hq : s.orderQueue = c :: rest) :
    Inv { s with orderHolder := some c, orderQueue := rest,
                 pc := setPc s.pc c Phase.ordering } := by
  have hpcc : s.pc c = Phase.inOrderQueue :=
    (hinv.orderQ_mem c).1 (by rw [hq]; exact List.mem_cons_self c rest)
  refine
    { total_eq := hinv.total_eq, list_eq := hinv.list_eq,
      pc_unspawned := pcUnspawned_keep hinv.pc_unspawned (by rw [hpcc]; simp),
      pc_spawned := pcSpawned_keep hinv.pc_spawned (by simp),
      orderQ_mem := memIff_pop hq hinv.orderQ_mem hinv.orderQ_nodup (by simp),
      payQ_mem := memIff_keep hinv.payQ_mem (by rw [hpcc]; simp) (by simp),
      pickupQ_mem := memIff_keep hinv.pickupQ_mem (by rw [hpcc]; simp) (by simp),
      orderH_iff := holderIff_acquire (holder_none_not hinv.orderH_iff hfree)
        (by simp [IsOrderPhase]),
      payH_iff := holderIff_keep hinv.payH_iff
        (by rw [hpcc]; simp [IsPayPhase]) (by simp [IsPayPhase]),
      pickupH_iff := holderIff_keep hinv.pickupH_iff
        (by rw [hpcc]; simp [IsPickupPhase]) (by simp [IsPickupPhase]),
      orderQ_nodup := by
        have hnd := hinv.orderQ_nodup
        rw [hq] at hnd
        exact (List.nodup_cons.mp hnd).2,
      payQ_nodup := hinv.payQ_nodup, pickupQ_nodup := hinv.pickupQ_nodup,
      payQ_len := hinv.payQ_len, pickupQ_len := hinv.pickupQ_len,
      payBp_inv := waitInv_keep hinv.payBp_inv (by intro hd; simp),
      pickupBp_inv := waitInv_keep hinv.pickupBp_inv (by intro hd; simp),
      count_eq := ?_ }
  · show s.numCustomersStayed + s.numCustomersLeft
        + ((Finset.range s.spawned).filter
            (fun d => setPc s.pc c Phase.ordering d = Phase.pending)).card
      = s.spawned
    have hcard := filter_card_setPc_untouched s.pc c Phase.ordering s.spawned
      (by rw [hpcc]; simp) (by simp)
    have hold := hinv.count_eq
    unfold pendingCount at hold
    omega

end Pipe

end Sim

namespace Sim

namespace Pipe

theorem inv_orderToPay {s : Sys} {c : ℕ} (hinv : Inv s)
    (hh : s.orderHolder = some c) (hpc : s.pc c = Phase.ordering)
    (hlen : s.payQueue.length < PAY_LINE_LIMIT) :
    Inv { s with orderHolder := none,
                 payQueue := s.payQueue ++ [c],
                 pc := setPc s.pc c Phase.inPayQueue } := by
  have hnotin : c ∉ s.payQueue := by
    intro hmem
    have h2 := (hinv.payQ_mem c).1 hmem
    rw [hpc] at h2
    simp at h2
  refine
    { total_eq := hinv.total_eq, list_eq := hinv.list_eq,
      pc_unspawned := pcUnspawned_keep hinv.pc_unspawned (by rw [hpc]; simp),
      pc_spawned := pcSpawned_keep hinv.pc_spawned (by simp),
      orderQ_mem := memIff_keep hinv.orderQ_mem (by rw [hpc]; simp) (by simp),
      payQ_mem := memIff_push hinv.payQ_mem,
      pickupQ_mem := memIff_keep hinv.pickupQ_mem (by rw [hpc]; simp) (by simp),
      orderH_iff := holderIff_release hinv.orderH_iff hh (by simp [IsOrderPhase]),
      payH_iff := holderIff_keep hinv.payH_iff
        (by rw [hpc]; simp [IsPayPhase]) (by simp [IsPayPhase]),
      pickupH_iff := holderIff_keep hinv.pickupH_iff
        (by rw [hpc]; simp [IsPickupPhase]) (by simp [IsPickupPhase]),
      orderQ_nodup := hinv.orderQ_nodup,
      payQ_nodup := nodup_concat hnotin hinv.payQ_nodup,
      pickupQ_nodup := hinv.pickupQ_nodup,
      payQ_len := ?_, pickupQ_len := hinv.pickupQ_len,
      payBp_inv := ?_,
      pickupBp_inv := waitInv_keep hinv.pickupBp_inv (by intro h'; simp),
      count_eq := ?_ }
  · show (s.payQueue ++ [c]).length ≤ PAY_LINE_LIMIT
    rw [List.length_append, List.length_singleton]
    omega
  · intro c'' hd hpc''
    have hpc2 : setPc s.pc c Phase.inPayQueue c'' = Phase.payBpWait hd := hpc''
    by_cases hcc : c'' = c
    · subst hcc
      rw [setPc_same] at hpc2
      simp at hpc2
    · rw [setPc_ne _ _ _ hcc] at hpc2
      have hOP : IsOrderPhase (s.pc c'') := by rw [hpc2]; simp [IsOrderPhase]
      exact absurd (holder_unique_wait hinv.orderH_iff hh hOP) hcc
  · show s.numCustomersStayed + s.numCustomersLeft
        + ((Finset.range s.spawned).filter
            (fun d => setPc s.pc c Phase.inPayQueue d = Phase.pending)).card
      = s.spawned
    have hcard := filter_card_setPc_untouched s.pc c Phase.inPayQueue s.spawned
      (by rw [hpc]; simp) (by simp)
    have hold := hinv.count_eq
    unfold pendingCount at hold
    omega

theorem inv_orderBpEnter {s : Sys} {c hd : ℕ} (hinv : Inv s)
    (hh : s.orderHolder = some c) (hpc : s.pc c = Phase.ordering)
    (hlen : PAY_LINE_LIMIT ≤ s.payQueue.length)
    (hhead : s.payQueue.head? = some hd) :
    Inv { s with pc := setPc s.pc c (Phase.payBpWait hd) } := by
  refine
    { total_eq := hinv.total_eq, list_eq := hinv.list_eq,
      pc_unspawned := pcUnspawned_keep hinv.pc_unspawned (by rw [hpc]; simp),
      pc_spawned := pcSpawned_keep hinv.pc_spawned (by simp),
      orderQ_mem := memIff_keep hinv.orderQ_mem (by rw [hpc]; simp) (by simp),
      payQ_mem := memIff_keep hinv.payQ_mem (by rw [hpc]; simp) (by simp),
      pickupQ_mem := memIff_keep hinv.pickupQ_mem (by rw [hpc]; simp) (by simp),
      orderH_iff := holderIff_rephase hinv.orderH_iff hh (by simp [IsOrderPhase]),
      payH_iff := holderIff_keep hinv.payH_iff
        (by rw [hpc]; simp [IsPayPhase]) (by simp [IsPayPhase]),
      pickupH_iff := holderIff_keep hinv.pickupH_iff
        (by rw [hpc]; simp [IsPickupPhase]) (by simp [IsPickupPhase]),
      orderQ_nodup := hinv.orderQ_nodup, payQ_nodup := hinv.payQ_nodup,
      pickupQ_nodup := hinv.pickupQ_nodup,
      payQ_len := hinv.payQ_len, pickupQ_len := hinv.pickupQ_len,
      payBp_inv := ?_,
      pickupBp_inv := waitInv_keep hinv.pickupBp_inv (by intro h'; simp),
      count_eq := ?_ }
  · intro c'' hd'' hpc''
    have hpc2 : setPc s.pc c (Phase.payBpWait hd) c'' = Phase.payBpWait hd'' := hpc''
    show (hd'' ∈ s.payQueue ∧ s.payQueue.length = PAY_LINE_LIMIT
          ∧ s.payQueue.head? = some hd'')
        ∨ s.payQueue.length < PAY_LINE_LIMIT
    by_cases hcc : c'' = c
    · subst hcc
      rw [setPc_same] at hpc2
      have hdd : hd = hd'' := by
        injection hpc2
      subst hdd
      left
      refine ⟨mem_of_head?_eq hhead, ?_, hhead⟩
      have := hinv.payQ_len
      omega
    · rw [setPc_ne _ _ _ hcc] at hpc2
      exact hinv.payBp_inv c'' hd'' hpc2
  · show s.numCustomersStayed + s.numCustomersLeft
        + ((Finset.range s.spawned).filter
            (fun d => setPc s.pc c (Phase.payBpWait hd) d = Phase.pending)).card
      = s.spawned
    have hcard := filter_card_setPc_untouched s.pc c (Phase.payBpWait hd) s.spawned
      (by rw [hpc]; simp) (by simp)
    have hold := hinv.count_eq
    unfold pendingCount at hold
    omega

theorem inv_orderBpResume {s : Sys} {c hd : ℕ} (hinv : Inv s)
    (hh : s.orderHolder = some c) (hpc : s.pc c = Phase.payBpWait hd)
    (hout : hd ∉ s.payQueue) :
    Inv { s with orderHolder := none,
                 payQueue := s.payQueue ++ [c],
                 pc := setPc s.pc c Phase.inPayQueue } := by
  have hlt : s.payQueue.length < PAY_LINE_LIMIT := by
    rcases hinv.payBp_inv c hd hpc with ⟨hmem, _, _⟩ | hlt
    · exact absurd hmem hout
    · exact hlt
  have hnotin : c ∉ s.payQueue := by
    intro hmem
    have h2 := (hinv.payQ_mem c).1 hmem
    rw [hpc] at h2
    simp at h2
  refine
    { total_eq := hinv.total_eq, list_eq := hinv.list_eq,
      pc_unspawned := pcUnspawned_keep hinv.pc_unspawned (by rw [hpc]; simp),
      pc_spawned := pcSpawned_keep hinv.pc_spawned (by simp),
      orderQ_mem := memIff_keep hinv.orderQ_mem (by rw [hpc]; simp) (by simp),
      payQ_mem := memIff_push hinv.payQ_mem,
      pickupQ_mem := memIff_keep hinv.pickupQ_mem (by rw [hpc]; simp) (by simp),
      orderH_iff := holderIff_release hinv.orderH_iff hh (by simp [IsOrderPhase]),
      payH_iff := holderIff_keep hinv.payH_iff
        (by rw [hpc]; simp [IsPayPhase]) (by simp [IsPayPhase]),
      pickupH_iff := holderIff_keep hinv.pickupH_iff
        (by rw [hpc]; simp [IsPickupPhase]) (by simp [IsPickupPhase]),
      orderQ_nodup := hinv.orderQ_nodup,
      payQ_nodup := nodup_concat hnotin hinv.payQ_nodup,
      pickupQ_nodup := hinv.pickupQ_nodup,
      payQ_len := ?_, pickupQ_len := hinv.pickupQ_len,
      payBp_inv := ?_,
      pickupBp_inv := waitInv_keep hinv.pickupBp_inv (by intro h'; simp),
      count_eq := ?_ }
  · show (s.payQueue ++ [c]).length ≤ PAY_LINE_LIMIT
    rw [List.length_append, List.length_singleton]
    omega
  · intro c'' hd'' hpc''
    have hpc2 : setPc s.pc c Phase.inPayQueue c'' = Phase.payBpWait hd'' := hpc''
    by_cases hcc : c'' = c
    · subst hcc
      rw [setPc_same] at hpc2
      simp at hpc2
    · rw [setPc_ne _ _ _ hcc] at hpc2
      have hOP : IsOrderPhase (s.pc c'') := by rw [hpc2]; simp [IsOrderPhase]
      exact absurd (holder_unique_wait hinv.orderH_iff hh hOP) hcc
  · show s.numCustomersStayed + s.numCustomersLeft
        + ((Finset.range s.spawned).filter
            (fun d => setPc s.pc c Phase.inPayQueue d = Phase.pending)).card
      = s.spawned
    have hcard := filter_card_setPc_untouched s.pc c Phase.inPayQueue s.spawned
      (by rw [hpc]; simp) (by simp)
    have hold := hinv.count_eq
    unfold pendingCount at hold
    omega

theorem inv_admitPay {s : Sys} {c : ℕ} {rest : List ℕ} (hinv : Inv s)
    (hfree : s.payHolder = none) (hq : s.payQueue = c :: rest) :
    Inv { s with payHolder := some c, payQueue := rest,
                 pc := setPc s.pc c Phase.paying } := by
  have hpcc : s.pc c = Phase.inPayQueue :=
    (hinv.payQ_mem c).1 (by rw [hq]; exact List.mem_cons_self c rest)
  refine
    { total_eq := hinv.total_eq, list_eq := hinv.list_eq,
      pc_unspawned := pcUnspawned_keep hinv.pc_unspawned (by rw [hpcc]; simp),
      pc_spawned := pcSpawned_keep hinv.pc_spawned (by simp),
      orderQ_mem := memIff_keep hinv.orderQ_mem (by rw [hpcc]; simp) (by simp),
      payQ_mem := memIff_pop hq hinv.payQ_mem hinv.payQ_nodup (by simp),
      pickupQ_mem := memIff_keep hinv.pickupQ_mem (by rw [hpcc]; simp) (by simp),
      orderH_iff := holderIff_keep hinv.orderH_iff
        (by rw [hpcc]; simp [IsOrderPhase]) (by simp [IsOrderPhase]),
      payH_iff := holderIff_acquire (holder_none_not hinv.payH_iff hfree)
        (by simp [IsPayPhase]),
      pickupH_iff := holderIff_keep hinv.pickupH_iff
        (by rw [hpcc]; simp [IsPickupPhase]) (by simp [IsPickupPhase]),
      orderQ_nodup := hinv.orderQ_nodup,
      payQ_nodup := by
        have hnd := hinv.payQ_nodup
        rw [hq] at hnd
        exact (List.nodup_cons.mp hnd).2,
      pickupQ_nodup := hinv.pickupQ_nodup,
      payQ_len := ?_, pickupQ_len := hinv.pickupQ_len,
      payBp_inv := ?_,
      pickupBp_inv := waitInv_keep hinv.pickupBp_inv (by intro h'; simp),
      count_eq := ?_ }
  · show rest.length ≤ PAY_LINE_LIMIT
    have hl := hinv.payQ_len
    rw [hq, List.length_cons] at hl
    omega
  · intro c'' hd hpc''
    show (hd ∈ rest ∧ rest.length = PAY_LINE_LIMIT ∧ rest.head? = some hd)
        ∨ rest.length < PAY_LINE_LIMIT
    right
    have hl := hinv.payQ_len
    rw [hq, List.length_cons] at hl
    omega
  · show s.numCustomersStayed + s.numCustomersLeft
        + ((Finset.range s.spawned).filter
            (fun d => setPc s.pc c Phase.paying d = Phase.pending)).card
      = s.spawned
    have hcard := filter_card_setPc_untouched s.pc c Phase.paying s.spawned
      (by rw [hpcc]; simp) (by simp)
    have hold := hinv.count_eq
    unfold pendingCount at hold
    omega

theorem inv_payToPickup {s : Sys} {c : ℕ} (hinv : Inv s)
    (hh : s.payHolder = some c) (hpc : s.pc c = Phase.paying)
    (hlen : s.pickupQueue.length < PICKUP_LINE_LIMIT) :
    Inv { s with payHolder := none,
                 pickupQueue := s.pickupQueue ++ [c],
                 pc := setPc s.pc c Phase.inPickupQueue } := by
  have hnotin : c ∉ s.pickupQueue := by
    intro hmem
    have h2 := (hinv.pickupQ_mem c).1 hmem
    rw [hpc] at h2
    simp at h2
  refine
    { total_eq := hinv.total_eq, list_eq := hinv.list_eq,
      pc_unspawned := pcUnspawned_keep hinv.pc_unspawned (by rw [hpc]; simp),
      pc_spawned := pcSpawned_keep hinv.pc_spawned (by simp),
      orderQ_mem := memIff_keep hinv.orderQ_mem (by rw [hpc]; simp) (by simp),
      payQ_mem := memIff_keep hinv.payQ_mem (by rw [hpc]; simp) (by simp),
      pickupQ_mem := memIff_push hinv.pickupQ_mem,
      orderH_iff := holderIff_keep hinv.orderH_iff
        (by rw [hpc]; simp [IsOrderPhase]) (by simp [IsOrderPhase]),
      payH_iff := holderIff_release hinv.payH_iff hh (by simp [IsPayPhase]),
      pickupH_iff := holderIff_keep hinv.pickupH_iff
        (by rw [hpc]; simp [IsPickupPhase]) (by simp [IsPickupPhase]),
      orderQ_nodup := hinv.orderQ_nodup, payQ_nodup := hinv.payQ_nodup,
      pickupQ_nodup := nodup_concat hnotin hinv.pickupQ_nodup,
      payQ_len := hinv.payQ_len, pickupQ_len := ?_,
      payBp_inv := waitInv_keep hinv.payBp_inv (by intro h'; simp),
      pickupBp_inv := ?_,
      count_eq := ?_ }
  · show (s.pickupQueue ++ [c]).length ≤ PICKUP_LINE_LIMIT
    rw [List.length_append, List.length_singleton]
    omega
  · intro c'' hd hpc''
    have hpc2 : setPc s.pc c Phase.inPickupQueue c'' = Phase.pickupBpWait hd := hpc''
    by_cases hcc : c'' = c
    · subst hcc
      rw [setPc_same] at hpc2
      simp at hpc2
    · rw [setPc_ne _ _ _ hcc] at hpc2
      have hPP : IsPayPhase (s.pc c'') := by rw [hpc2]; simp [IsPayPhase]
      exact absurd (holder_unique_wait hinv.payH_iff hh hPP) hcc
  · show s.numCustomersStayed + s.numCustomersLeft
        + ((Finset.range s.spawned).filter
            (fun d => setPc s.pc c Phase.inPickupQueue d = Phase.pending)).card
      = s.spawned
    have hcard := filter_card_setPc_untouched s.pc c Phase.inPickupQueue s.spawned
      (by rw [hpc]; simp) (by simp)
    have hold := hinv.count_eq
    unfold pendingCount at hold
    omega

theorem inv_payBpEnter {s : Sys} {c hd : ℕ} (hinv : Inv s)
    (hh : s.payHolder = some c) (hpc : s.pc c = Phase.paying)
    (hlen : PICKUP_LINE_LIMIT ≤ s.pickupQueue.length)
    (hhead : s.pickupQueue.head? = some hd) :
    Inv { s with pc := setPc s.pc c (Phase.pickupBpWait hd) } := by
  refine
    { total_eq := hinv.total_eq, list_eq := hinv.list_eq,
      pc_unspawned := pcUnspawned_keep hinv.pc_unspawned (by rw [hpc]; simp),
      pc_spawned := pcSpawned_keep hinv.pc_spawned (by simp),
      orderQ_mem := memIff_keep hinv.orderQ_mem (by rw [hpc]; simp) (by simp),
      payQ_mem := memIff_keep hinv.payQ_mem (by rw [hpc]; simp) (by simp),
      pickupQ_mem := memIff_keep hinv.pickupQ_mem (by rw [hpc]; simp) (by simp),
      orderH_iff := holderIff_keep hinv.orderH_iff
        (by rw [hpc]; simp [IsOrderPhase]) (by simp [IsOrderPhase]),
      payH_iff := holderIff_rephase hinv.payH_iff hh (by simp [IsPayPhase]),
      pickupH_iff := holderIff_keep hinv.pickupH_iff
        (by rw [hpc]; simp [IsPickupPhase]) (by simp [IsPickupPhase]),
      orderQ_nodup := hinv.orderQ_nodup, payQ_nodup := hinv.payQ_nodup,
      pickupQ_nodup := hinv.pickupQ_nodup,
      payQ_len := hinv.payQ_len, pickupQ_len := hinv.pickupQ_len,
      payBp_inv := waitInv_keep hinv.payBp_inv (by intro h'; simp),
      pickupBp_inv := ?_,
      count_eq := ?_ }
  · intro c'' hd'' hpc''
    have hpc2 : setPc s.pc c (Phase.pickupBpWait hd) c'' = Phase.pickupBpWait hd'' := hpc''
    show (hd'' ∈ s.pickupQueue ∧ s.pickupQueue.length = PICKUP_LINE_LIMIT
          ∧ s.pickupQueue.head? = some hd'')
        ∨ s.pickupQueue.length < PICKUP_LINE_LIMIT
    by_cases hcc : c'' = c
    · subst hcc
      rw [setPc_same] at hpc2
      have hdd : hd = hd'' := by
        injection hpc2
      subst hdd
      left
      refine ⟨mem_of_head?_eq hhead, ?_, hhead⟩
      have := hinv.pickupQ_len
      omega
    · rw [setPc_ne _ _ _ hcc] at hpc2
      exact hinv.pickupBp_inv c'' hd'' hpc2
  · show s.numCustomersStayed + s.numCustomersLeft
        + ((Finset.range s.spawned).filter
            (fun d => setPc s.pc c (Phase.pickupBpWait hd) d = Phase.pending)).card
      = s.spawned
    have hcard := filter_card_setPc_untouched s.pc c (Phase.pickupBpWait hd) s.spawned
      (by rw [hpc]; simp) (by simp)
    have hold := hinv.count_eq
    unfold pendingCount at hold
    omega

theorem inv_payBpResume {s : Sys} {c hd : ℕ} (hinv : Inv s)
    (hh : s.payHolder = some c) (hpc : s.pc c = Phase.pickupBpWait hd)
    (hout : hd ∉ s.pickupQueue) :
    Inv { s with payHolder := none,
                 pickupQueue := s.pickupQueue ++ [c],
                 pc := setPc s.pc c Phase.inPickupQueue } := by
  have hlt : s.pickupQueue.length < PICKUP_LINE_LIMIT := by
    rcases hinv.pickupBp_inv c hd hpc with ⟨hmem, _, _⟩ | hlt
    · exact absurd hmem hout
    · exact hlt
  have hnotin : c ∉ s.pickupQueue := by
    intro hmem
    have h2 := (hinv.pickupQ_mem c).1 hmem
    rw [hpc] at h2
    simp at h2
  refine
    { total_eq := hinv.total_eq, list_eq := hinv.list_eq,
      pc_unspawned := pcUnspawned_keep hinv.pc_unspawned (by rw [hpc]; simp),
      pc_spawned := pcSpawned_keep hinv.pc_spawned (by simp),
      orderQ_mem := memIff_keep hinv.orderQ_mem (by rw [hpc]; simp) (by simp),
      payQ_mem := memIff_keep hinv.payQ_mem (by rw [hpc]; simp) (by simp),
      pickupQ_mem := memIff_push hinv.pickupQ_mem,
      orderH_iff := holderIff_keep hinv.orderH_iff
        (by rw [hpc]; simp [IsOrderPhase]) (by simp [IsOrderPhase]),
      payH_iff := holderIff_release hinv.payH_iff hh (by simp [IsPayPhase]),
      pickupH_iff := holderIff_keep hinv.pickupH_iff
        (by rw [hpc]; simp [IsPickupPhase]) (by simp [IsPickupPhase]),
      orderQ_nodup := hinv.orderQ_nodup, payQ_nodup := hinv.payQ_nodup,
      pickupQ_nodup := nodup_concat hnotin hinv.pickupQ_nodup,
      payQ_len := hinv.payQ_len, pickupQ_len := ?_,
      payBp_inv := waitInv_keep hinv.payBp_inv (by intro h'; simp),
      pickupBp_inv := ?_,
      count_eq := ?_ }
  · show (s.pickupQueue ++ [c]).length ≤ PICKUP_LINE_LIMIT
    rw [List.length_append, List.length_singleton]
    omega
  · intro c'' hd'' hpc''
    have hpc2 : setPc s.pc c Phase.inPickupQueue c'' = Phase.pickupBpWait hd'' := hpc''
    by_cases hcc : c'' = c
    · subst hcc
      rw [setPc_same] at hpc2
      simp at hpc2
    · rw [setPc_ne _ _ _ hcc] at hpc2
      have hPP : IsPayPhase (s.pc c'') := by rw [hpc2]; simp [IsPayPhase]
      exact absurd (holder_unique_wait hinv.payH_iff hh hPP) hcc
  · show s.numCustomersStayed + s.numCustomersLeft
        + ((Finset.range s.spawned).filter
            (fun d => setPc s.pc c Phase.inPickupQueue d = Phase.pending)).card
      = s.spawned
    have hcard := filter_card_setPc_untouched s.pc c Phase.inPickupQueue s.spawned
      (by rw [hpc]; simp) (by simp)
    have hold := hinv.count_eq
    unfold pendingCount at hold
    omega

theorem inv_admitPickup {s : Sys} {c : ℕ} {rest : List ℕ} (hinv : Inv s)
    (hfree : s.pickupHolder = none) (hq : s.pickupQueue = c :: rest) :
    Inv { s with pickupHolder := some c, pickupQueue := rest,
                 pc := setPc s.pc c Phase.pickingUp } := by
  have hpcc : s.pc c = Phase.inPickupQueue :=
    (hinv.pickupQ_mem c).1 (by rw [hq]; exact List.mem_cons_self c rest)
  refine
    { total_eq := hinv.total_eq, list_eq := hinv.list_eq,
      pc_unspawned := pcUnspawned_keep hinv.pc_unspawned (by rw [hpcc]; simp),
      pc_spawned := pcSpawned_keep hinv.pc_spawned (by simp),
      orderQ_mem := memIff_keep hinv.orderQ_mem (by rw [hpcc]; simp) (by simp),
      payQ_mem := memIff_keep hinv.payQ_mem (by rw [hpcc]; simp) (by simp),
      pickupQ_mem := memIff_pop hq hinv.pickupQ_mem hinv.pickupQ_nodup (by simp),
      orderH_iff := holderIff_keep hinv.orderH_iff
        (by rw [hpcc]; simp [IsOrderPhase]) (by simp [IsOrderPhase]),
      payH_iff := holderIff_keep hinv.payH_iff
        (by rw [hpcc]; simp [IsPayPhase]) (by simp [IsPayPhase]),
      pickupH_iff := holderIff_acquire (holder_none_not hinv.pickupH_iff hfree)
        (by simp [IsPickupPhase]),
      orderQ_nodup := hinv.orderQ_nodup, payQ_nodup := hinv.payQ_nodup,
      pickupQ_nodup := by
        have hnd := hinv.pickupQ_nodup
        rw [hq] at hnd
        exact (List.nodup_cons.mp hnd).2,
      payQ_len := hinv.payQ_len, pickupQ_len := ?_,
      payBp_inv := waitInv_keep hinv.payBp_inv (by intro h'; simp),
      pickupBp_inv := ?_,
      count_eq := ?_ }
  · show rest.length ≤ PICKUP_LINE_LIMIT
    have hl := hinv.pickupQ_len
    rw [hq, List.length_cons] at hl
    omega
  · intro c'' hd hpc''
    show (hd ∈ rest ∧ rest.length = PICKUP_LINE_LIMIT ∧ rest.head? = some hd)
        ∨ rest.length < PICKUP_LINE_LIMIT
    right
    have hl := hinv.pickupQ_len
    rw [hq, List.length_cons] at hl
    omega
  · show s.numCustomersStayed + s.numCustomersLeft
        + ((Finset.range s.spawned).filter
            (fun d => setPc s.pc c Phase.pickingUp d = Phase.pending)).card
      = s.spawned
    have hcard := filter_card_setPc_untouched s.pc c Phase.pickingUp s.spawned
      (by rw [hpcc]; simp) (by simp)
    have hold := hinv.count_eq
    unfold pendingCount at hold
    omega

theorem inv_finishPickup {s : Sys} {c : ℕ} (hinv : Inv s)
    (hh : s.pickupHolder = some c) (hpc : s.pc c = Phase.pickingUp) :
    Inv { s with pickupHolder := none, pc := setPc s.pc c Phase.done } := by
  refine
    { total_eq := hinv.total_eq, list_eq := hinv.list_eq,
      pc_unspawned := pcUnspawned_keep hinv.pc_unspawned (by rw [hpc]; simp),
      pc_spawned := pcSpawned_keep hinv.pc_spawned (by simp),
      orderQ_mem := memIff_keep hinv.orderQ_mem (by rw [hpc]; simp) (by simp),
      payQ_mem := memIff_keep hinv.payQ_mem (by rw [hpc]; simp) (by simp),
      pickupQ_mem := memIff_keep hinv.pickupQ_mem (by rw [hpc]; simp) (by simp),
      orderH_iff := holderIff_keep hinv.orderH_iff
        (by rw [hpc]; simp [IsOrderPhase]) (by simp [IsOrderPhase]),
      payH_iff := holderIff_keep hinv.payH_iff
        (by rw [hpc]; simp [IsPayPhase]) (by simp [IsPayPhase]),
      pickupH_iff := holderIff_release hinv.pickupH_iff hh
        (by simp [IsPickupPhase]),
      orderQ_nodup := hinv.orderQ_nodup, payQ_nodup := hinv.payQ_nodup,
      pickupQ_nodup := hinv.pickupQ_nodup,
      payQ_len := hinv.payQ_len, pickupQ_len := hinv.pickupQ_len,
      payBp_inv := waitInv_keep hinv.payBp_inv (by intro h'; simp),
      pickupBp_inv := waitInv_keep hinv.pickupBp_inv (by intro h'; simp),
      count_eq := ?_ }
  · show s.numCustomersStayed + s.numCustomersLeft
        + ((Finset.range s.spawned).filter
            (fun d => setPc s.pc c Phase.done d = Phase.pending)).card
      = s.spawned
    have hcard := filter_card_setPc_untouched s.pc c Phase.done s.spawned
      (by rw [hpc]; simp) (by simp)
    have hold := hinv.count_eq
    unfold pendingCount at hold
    omega

/-- The invariant is preserved by every step. -/
theorem inv_step {n : ℕ} {s s' : Sys} (hinv : Inv s) (hstep : Step n s s') :
    Inv s' := by
  cases hstep with
  | spawn hlt => exact inv_spawn hinv
  | startStay c hpc hlen => exact inv_startStay hinv hpc
  | startBalk c hpc hlen => exact inv_startBalk hinv hpc
  | admitOrder c rest hfree hq => exact inv_admitOrder hinv hfree hq
  | orderToPay c hh hpc hlen => exact inv_orderToPay hinv hh hpc hlen
  | orderBpEnter c hd hh hpc hlen hhead =>
      exact inv_orderBpEnter hinv hh hpc hlen hhead
  | orderBpResume c hd hh hpc hout => exact inv_orderBpResume hinv hh hpc hout
  | admitPay c rest hfree hq => exact inv_admitPay hinv hfree hq
  | payToPickup c hh hpc hlen => exact inv_payToPickup hinv hh hpc hlen
  | payBpEnter c hd hh hpc hlen hhead =>
      exact inv_payBpEnter hinv hh hpc hlen hhead
  | payBpResume c hd hh hpc hout => exact inv_payBpResume hinv hh hpc hout
  | admitPickup c rest hfree hq => exact inv_admitPickup hinv hfree hq
  | finishPickup c hh hpc => exact inv_finishPickup hinv hh hpc

/-- Every reachable state satisfies the invariant. -/
theorem inv_reachable {n : ℕ} {s : Sys} (hr : Reachable n s) : Inv s := by
  induction hr with
  | refl => exact inv_init
  | tail _ hstep ih => exact inv_step ih hstep

end Pipe

end Sim

namespace Sim

namespace Pipe

theorem isPickupPhase_elim {ph : Phase} (h : IsPickupPhase ph) :
    ph = Phase.pickingUp := by
  cases ph <;> first
    | rfl
    | simp [IsPickupPhase] at h

theorem isOrderPhase_elim {ph : Phase} (h : IsOrderPhase ph) :
    ph = Phase.ordering ∨ ∃ hd, ph = Phase.payBpWait hd := by
  cases ph <;> first
    | exact Or.inl rfl
    | exact Or.inr ⟨_, rfl⟩
    | simp [IsOrderPhase] at h

theorem isPayPhase_elim {ph : Phase} (h : IsPayPhase ph) :
    ph = Phase.paying ∨ ∃ hd, ph = Phase.pickupBpWait hd := by
  cases ph <;> first
    | exact Or.inl rfl
    | exact Or.inr ⟨_, rfl⟩
    | simp [IsPayPhase] at h

theorem progress_pickupHolder {n : ℕ} {s : Sys} (hinv : Inv s) {f : ℕ}
    (hh : s.pickupHolder = some f) : ∃ s', Step n s s' := by
  have hpc : s.pc f = Phase.pickingUp :=
    isPickupPhase_elim ((hinv.pickupH_iff f).1 hh)
  exact ⟨_, Step.finishPickup s f hh hpc⟩

theorem progress_pickupQueue {n : ℕ} {s : Sys} (hinv : Inv s)
    (hne : s.pickupQueue ≠ []) : ∃ s', Step n s s' := by
  cases hq : s.pickupQueue with
  | nil => exact absurd hq hne
  | cons c rest =>
    cases hh : s.pickupHolder with
    | none => exact ⟨_, Step.admitPickup s c rest hh hq⟩
    | some f => exact progress_pickupHolder hinv hh

theorem progress_payHolder {n : ℕ} {s : Sys} (hinv : Inv s) {f : ℕ}
    (hh : s.payHolder = some f) : ∃ s', Step n s s' := by
  rcases isPayPhase_elim ((hinv.payH_iff f).1 hh) with hpc | ⟨hd, hpc⟩
  · by_cases hlen : s.pickupQueue.length < PICKUP_LINE_LIMIT
    · exact ⟨_, Step.payToPickup s f hh hpc hlen⟩
    · have hle : PICKUP_LINE_LIMIT ≤ s.pickupQueue.length := by omega
      cases hq : s.pickupQueue with
      | nil =>
        rw [hq] at hle
        simp [PICKUP_LINE_LIMIT] at hle
      | cons c rest =>
        exact ⟨_, Step.payBpEnter s f c hh hpc hle (by rw [hq]; rfl)⟩
  · by_cases hout : hd ∈ s.pickupQueue
    · refine progress_pickupQueue hinv ?_
      intro hnil
      rw [hnil] at hout
      cases hout
    · exact ⟨_, Step.payBpResume s f hd hh hpc hout⟩

theorem progress_payQueue {n : ℕ} {s : Sys} (hinv : Inv s)
    (hne : s.payQueue ≠ []) : ∃ s', Step n s s' := by
  cases hq : s.payQueue with
  | nil => exact absurd hq hne
  | cons c rest =>
    cases hh : s.payHolder with
    | none => exact ⟨_, Step.admitPay s c rest hh hq⟩
    | some f => exact progress_payHolder hinv hh

theorem progress_orderHolder {n : ℕ} {s : Sys} (hinv : Inv s) {f : ℕ}
    (hh : s.orderHolder = some f) : ∃ s', Step n s s' := by
  rcases isOrderPhase_elim ((hinv.orderH_iff f).1 hh) with hpc | ⟨hd, hpc⟩
  · by_cases hlen : s.payQueue.length < PAY_LINE_LIMIT
    · exact ⟨_, Step.orderToPay s f hh hpc hlen⟩
    · have hle : PAY_LINE_LIMIT ≤ s.payQueue.length := by omega
      cases hq : s.payQueue with
      | nil =>
        rw [hq] at hle
        simp [PAY_LINE_LIMIT] at hle
      | cons c rest =>
        exact ⟨_, Step.orderBpEnter s f c hh hpc hle (by rw [hq]; rfl)⟩
  · by_cases hout : hd ∈ s.payQueue
    · refine progress_payQueue hinv ?_
      intro hnil
      rw [hnil] at hout
      cases hout
    · exact ⟨_, Step.orderBpResume s f hd hh hpc hout⟩

theorem progress_orderQueue {n : ℕ} {s : Sys} (hinv : Inv s)
    (hne : s.orderQueue ≠ []) : ∃ s', Step n s s' := by
  cases hq : s.orderQueue with
  | nil => exact absurd hq hne
  | cons c rest =>
    cases hh : s.orderHolder with
    | none => exact ⟨_, Step.admitOrder s c rest hh hq⟩
    | some f => exact progress_orderHolder hinv hh

/-- Progress: a spawned customer that is neither completed nor balked
enables some step — the system cannot stop with work left (the timeout
chain is grounded at the pickup station, whose holder always progresses).
-/
theorem progress {n : ℕ} {s : Sys} (hinv : Inv s) {c : ℕ}
    (hc : c < s.spawned)
    (hnd : s.pc c ≠ Phase.done) (hnb : s.pc c ≠ Phase.balked) :
    ∃ s', Step n s s' := by
  cases hph : s.pc c with
  | unspawned => exact absurd hph (hinv.pc_spawned c hc)
  | pending =>
    by_cases hlen : s.orderQueue.length ≤ 7 + NUM_OF_ORDER_STATIONS
    · exact ⟨_, Step.startStay s c hph hlen⟩
    · exact ⟨_, Step.startBalk s c hph (by omega)⟩
  | inOrderQueue =>
    refine progress_orderQueue hinv ?_
    intro hnil
    have hmem := (hinv.orderQ_mem c).2 hph
    rw [hnil] at hmem
    cases hmem
  | ordering =>
    exact progress_orderHolder hinv
      ((hinv.orderH_iff c).2 (by rw [hph]; simp [IsOrderPhase]))
  | payBpWait hd =>
    exact progress_orderHolder hinv
      ((hinv.orderH_iff c).2 (by rw [hph]; simp [IsOrderPhase]))
  | inPayQueue =>
    refine progress_payQueue hinv ?_
    intro hnil
    have hmem := (hinv.payQ_mem c).2 hph
    rw [hnil] at hmem
    cases hmem
  | paying =>
    exact progress_payHolder hinv
      ((hinv.payH_iff c).2 (by rw [hph]; simp [IsPayPhase]))
  | pickupBpWait hd =>
    exact progress_payHolder hinv
      ((hinv.payH_iff c).2 (by rw [hph]; simp [IsPayPhase]))
  | inPickupQueue =>
    refine progress_pickupQueue hinv ?_
    intro hnil
    have hmem := (hinv.pickupQ_mem c).2 hph
    rw [hnil] at hmem
    cases hmem
  | pickingUp =>
    exact progress_pickupHolder hinv
      ((hinv.pickupH_iff c).2 (by rw [hph]; simp [IsPickupPhase]))
  | done => exact absurd hph hnd
  | balked => exact absurd hph hnb

theorem step_spawned {n : ℕ} {s s' : Sys} (hstep : Step n s s') :
    s'.spawned = s.spawned ∨ (s'.spawned = s.spawned + 1 ∧ s.spawned < n) := by
  cases hstep <;> first
    | exact Or.inl rfl
    | exact Or.inr ⟨rfl, by assumption⟩

theorem spawned_le {n : ℕ} {s : Sys} (hr : Reachable n s) : s.spawned ≤ n := by
  induction hr with
  | refl => exact Nat.zero_le n
  | tail _ hstep ih =>
    rcases step_spawned hstep with h | ⟨h, hlt⟩ <;> omega

end Pipe

end Sim

/-- Claim C2: in every reachable state of the pipeline — in particular in
every state immediately after a customer releases the order or pay
station, for every customer and every interleaving — the pay wait line
holds at most 5 customers and the pickup wait line at most 2: the
backpressure checks bound the lines between stations. -/
theorem Sim.Pipe.backpressure_bounds {n : ℕ} {s : Sim.Pipe.Sys}
    (hr : Sim.Pipe.Reachable n s) :
    s.payQueue.length ≤ 5 ∧ s.pickupQueue.length ≤ 2 := by
  have hinv := Sim.Pipe.inv_reachable hr
  exact ⟨hinv.payQ_len, hinv.pickupQ_len⟩

/-- Witness for C2 at the (concrete, reachable) initial state. -/
theorem Sim.Pipe.backpressure_bounds_witness :
    Sim.Pipe.init.payQueue.length ≤ 5 ∧ Sim.Pipe.init.pickupQueue.length ≤ 2 :=
  @Sim.Pipe.backpressure_bounds 0 Sim.Pipe.init (@Sim.Pipe.Reachable.refl 0)

/-- Claim C10: when the scheduler halts on its own (no step is possible,
the analogue of `env.run()` with no horizon returning), every customer
process spawned by `generate_customers(n)` has run to completion (it is
`done` or `balked`), and `totalCustomers = len(customerList) = n =
numCustomersStayed + numCustomersLeft`. -/
theorem Sim.Pipe.terminal_counts {n : ℕ} {s : Sim.Pipe.Sys}
    (hr : Sim.Pipe.Reachable n s) (hterm : ∀ s', ¬ Sim.Pipe.Step n s s') :
    s.totalCustomers = s.listLen
      ∧ s.totalCustomers = n
      ∧ s.totalCustomers = s.numCustomersStayed + s.numCustomersLeft
      ∧ ∀ c, c < s.spawned →
          s.pc c = Sim.Pipe.Phase.done ∨ s.pc c = Sim.Pipe.Phase.balked := by
  have hinv := Sim.Pipe.inv_reachable hr
  have hspawn : s.spawned = n := by
    have hle := Sim.Pipe.spawned_le hr
    by_contra hne
    have hlt : s.spawned < n := by omega
    exact hterm _ (Sim.Pipe.Step.spawn s hlt)
  have hph : ∀ c, c < s.spawned →
      s.pc c = Sim.Pipe.Phase.done ∨ s.pc c = Sim.Pipe.Phase.balked := by
    intro c hc
    by_cases hd : s.pc c = Sim.Pipe.Phase.done
    · exact Or.inl hd
    · by_cases hb : s.pc c = Sim.Pipe.Phase.balked
      · exact Or.inr hb
      · obtain ⟨s', hs'⟩ := Sim.Pipe.progress hinv hc hd hb
        exact absurd hs' (hterm s')
  have hzero : Sim.Pipe.pendingCount s = 0 := by
    unfold Sim.Pipe.pendingCount
    rw [Finset.card_eq_zero, Finset.filter_eq_empty_iff]
    intro c hc
    rw [Finset.mem_range] at hc
    rcases hph c hc with h | h <;> rw [h] <;> simp
  refine ⟨?_, ?_, ?_, hph⟩
  · rw [hinv.total_eq, hinv.list_eq]
  · rw [hinv.total_eq, hspawn]
  · have hcnt := hinv.count_eq
    rw [hzero] at hcnt
    rw [hinv.total_eq]
    omega

namespace Sim

namespace Pipe

/-- With a zero arrival budget the initial state is terminal. -/
theorem no_step_init_zero : ∀ s', ¬ Step 0 init s' := by
  intro s' hstep
  cases hstep with
  | spawn hlt => exact Nat.lt_irrefl 0 hlt
  | startStay c hpc hlen => exact Phase.noConfusion hpc
  | startBalk c hpc hlen => exact Phase.noConfusion hpc
  | admitOrder c rest hfree hq => exact List.noConfusion hq
  | orderToPay c hh hpc hlen => exact Option.noConfusion hh
  | orderBpEnter c hd hh hpc hlen hhead => exact Option.noConfusion hh
  | orderBpResume c hd hh hpc hout => exact Option.noConfusion hh
  | admitPay c rest hfree hq => exact List.noConfusion hq
  | payToPickup c hh hpc hlen => exact Option.noConfusion hh
  | payBpEnter c hd hh hpc hlen hhead => exact Option.noConfusion hh
  | payBpResume c hd hh hpc hout => exact Option.noConfusion hh
  | admitPickup c rest hfree hq => exact List.noConfusion hq
  | finishPickup c hh hpc => exact Option.noConfusion hh

end Pipe

end Sim

/-- Witness for C10 at the concrete terminal run with a zero budget. -/
theorem Sim.Pipe.terminal_counts_witness :
    Sim.Pipe.init.totalCustomers = Sim.Pipe.init.listLen
      ∧ Sim.Pipe.init.totalCustomers = 0
      ∧ Sim.Pipe.init.totalCustomers
        = Sim.Pipe.init.numCustomersStayed + Sim.Pipe.init.numCustomersLeft
      ∧ ∀ c, c < Sim.Pipe.init.spawned →
          Sim.Pipe.init.pc c = Sim.Pipe.Phase.done
            ∨ Sim.Pipe.init.pc c = Sim.Pipe.Phase.balked :=
  Sim.Pipe.terminal_counts Sim.Pipe.Reachable.refl Sim.Pipe.no_step_init_zero
